import Mathlib

/-!
Shallow embedding of the archive signing and repackaging subsystem:
`eng/_util/cmd/sign` (sign.go, archiveutil.go, the archive model file) and
`eng/_util/internal/checksum/checksum.go`.

File contents are modelled as `List Nat` (byte lists), paths and names as
`String`.  Fallible operations return `Except String`.  The visitor callbacks
of the archive iteration helpers are purified into explicit state passing:
a Go closure mutating local state becomes `f : entry → σ → Except String σ`.
The ambient filesystem (original archive contents, signed files written back
in place by the external signer) is passed in as explicit data.
-/

deriving instance DecidableEq for Except

/-! ## Path helpers (Go standard library functions used by the program) -/

/-- Split a character list on `/` separators (helper for the lexical path
functions below).  `splitSlash "a/b".data = [['a'],['b']]`, and a leading,
trailing or doubled separator yields empty components, exactly like Go's
`strings.Split(path, "/")`. -/
def splitSlash : List Char → List (List Char)
  | [] => [[]]
  | c :: cs =>
    if c = '/' then [] :: splitSlash cs
    else
      match splitSlash cs with
      | [] => [[c]]
      | r :: rs => (c :: r) :: rs

/-- Join path components with `/` (helper for `cleanPath`). -/
def joinSlash : List (List Char) → List Char
  | [] => []
  | [p] => p
  | p :: ps => p ++ '/' :: joinSlash ps

/-- One step of `filepath.Clean`'s element processing: push a normal element,
drop `""` and `"."`, and resolve `".."` against the stack (`acc` holds the
output elements in reverse).  A `".."` with nothing to pop is dropped for a
rooted path and kept for a relative one, as in Go. -/
def cleanPush (rooted : Bool) (acc : List (List Char)) (part : List Char) : List (List Char) :=
  if part = [] ∨ part = ['.'] then acc
  else if part = ['.', '.'] then
    match acc with
    | [] => if rooted then [] else [['.', '.']]
    | top :: rest => if top = ['.', '.'] then part :: acc else rest
  else part :: acc

/-- Go `path/filepath.Clean` (unix rules), by purely lexical processing:
shortest equivalent path, `"."` for an empty result. -/
def cleanPath (path : String) : String :=
  if path = "" then "."
  else
    let rooted := path.data.headD ' ' = '/'
    let comps := ((splitSlash path.data).foldl (cleanPush rooted) []).reverse
    let s := (if rooted then ['/'] else []) ++ joinSlash comps
    if s = [] then "." else String.mk s

/-- Go `path/filepath.Join` (unix rules): drop leading empty elements, join
with `/`, then `Clean`.  The program calls it with two or three elements. -/
def joinPath (elems : List String) : String :=
  match elems.dropWhile (· = "") with
  | [] => ""
  | rest => cleanPath (String.mk (joinSlash (rest.map String.data)))

/-- Go `path/filepath.Base` (unix rules): strip trailing slashes and return
the last element; `"."` for an empty path, `"/"` for an all-slash path. -/
def baseName (path : String) : String :=
  if path = "" then "."
  else
    let cs := path.data.reverse.dropWhile (· = '/')
    if cs = [] then "/"
    else String.mk (cs.takeWhile (· ≠ '/')).reverse

/-- Depth-counting core of Go `path/filepath.IsLocal` (unix rules): walk the
`/`-separated elements keeping the current directory depth; `".."` at depth
zero means the path escapes its own directory.  This is the lexical content
of Go's `Clean`-then-check-for-a-leading-`".."` implementation. -/
def isLocalParts : Nat → List (List Char) → Bool
  | _, [] => true
  | depth, part :: rest =>
    if part = [] ∨ part = ['.'] then isLocalParts depth rest
    else if part = ['.', '.'] then
      match depth with
      | 0 => false
      | d + 1 => isLocalParts d rest
    else isLocalParts (depth + 1) rest

/-- Go `path/filepath.IsLocal` (unix rules): false for the empty path, an
absolute path, or a path whose `".."` elements escape its own directory. -/
def isLocal (path : String) : Bool :=
  match path.data with
  | [] => false
  | c :: _ => if c = '/' then false else isLocalParts 0 (splitSlash path.data)

/-- Go `strings.HasSuffix`. -/
def hasSuffix (s suffix : String) : Bool :=
  suffix.data.isSuffixOf s.data

/-- Go `strings.ToLower`, restricted to ASCII letters (the only case folding
exercised by the program's archive file names). -/
def toLowerStr (s : String) : String :=
  String.mk (s.data.map Char.toLower)

/-- The non-`/` suffixes of a name: the remainders a `*` glob element may
leave behind, since `*` matches any (possibly empty) run of non-separator
characters (helper for `globMatch`). -/
def nonSlashSuffixes : List Char → List (List Char)
  | [] => [[]]
  | c :: s => (c :: s) :: (if c = '/' then [] else nonSlashSuffixes s)

/-- Go `path/filepath.Match` (unix rules) restricted to the pattern forms the
program uses: literal characters and `*`.  `*` matches any possibly-empty run
of non-separator characters.  (The program's patterns — `go*.zip`,
`go*.tar.gz`, `go*darwin*.tar.gz`, `go/bin/*`, `go/pkg/tool/*/*` — contain no
`?`, character class, or escape, so those `Match` features are dead code for
it.) -/
def globMatch : List Char → List Char → Bool
  | [], s => s.isEmpty
  | c :: p, s =>
    if c = '*' then (nonSlashSuffixes s).any (fun r => globMatch p r)
    else
      match s with
      | [] => false
      | d :: s' => c = d && globMatch p s'

/-- `matchOrPanic` (archiveutil.go): `filepath.Match` whose pattern-syntax
error branch panics.  All patterns in the program are well formed, so the
panic branch is dead and the function is the plain match. -/
def matchOrPanic (pattern name : String) : Bool :=
  globMatch pattern.data name.data

/-! ## Data model -/

/-- `archiveType` (the archive model file): zip for Windows, tar.gz for macOS
and Linux. -/
inductive ArchiveType where
  | zipArchive
  | tarGzArchive
deriving DecidableEq, Repr

/-- `archive` (the archive model file).  The progressively-assigned
`repackedPath`/`notarizedPath` fields are not needed by any verified claim
and are omitted; the remaining fields are the ones `newArchive` populates. -/
structure Archive where
  path : String
  name : String
  archiveType : ArchiveType
  archiveMacOS : Bool
  workDir : String
deriving DecidableEq, Repr

/-- `fileToSign` (sign.go): one record of the signing manifest. -/
structure FileToSign where
  originalPath : String
  fullPath : String
  authenticode : String
  zip : Bool
  macAppName : String
deriving DecidableEq, Repr

/-- One entry of a zip container as the program reads it (`zip.File`):
`isDir` is the result of `f.FileInfo().IsDir()`, which Go derives from the
entry's mode bits and trailing-slash name.  `method` is the compression
method, `extra` the raw extra-field bytes. -/
structure ZipFile where
  name : String
  isDir : Bool
  method : Nat
  comment : String
  modified : Int
  extra : List Nat
  content : List Nat
deriving DecidableEq, Repr

/-- The fields of a `tar.Header` the program reads or writes.  `typeflag`
is the header type byte; timestamps are abstracted to integers. -/
structure TarHeader where
  typeflag : Nat
  name : String
  linkname : String
  size : Int
  mode : Int
  uid : Int
  gid : Int
  uname : String
  gname : String
  modTime : Int
  accessTime : Int
  changeTime : Int
deriving DecidableEq, Repr

/-- `tar.TypeReg`, the byte `'0'`. -/
def tarTypeReg : Nat := 48

/-- A zip entry written by `zip.Writer.CreateHeader` during repacking: only
the five metadata fields `writeZipRepackEntry` copies are set (all other
`zip.FileHeader` fields are left at their zero values). -/
structure ZipOutEntry where
  name : String
  method : Nat
  comment : String
  modified : Int
  extra : List Nat
  content : List Nat
deriving DecidableEq, Repr

/-- A tar entry written during repacking: the constructed header plus the
body bytes (`none` when only the header is written). -/
structure TarOutEntry where
  header : TarHeader
  body : Option (List Nat)
deriving DecidableEq, Repr

/-- The parsed contents of one on-disk archive file: a zip entry list or a
gzip-compressed tar entry list (header plus body bytes per entry). -/
inductive ArchiveContents where
  | zipC : List ZipFile → ArchiveContents
  | tarC : List (TarHeader × List Nat) → ArchiveContents

/-- A file-creating side effect of the prepare phase: either a plain file
written via `withFileCreate` (path, bytes), or a zip bundle written via
`withZipCreate` (path, entries as name-content pairs). -/
inductive WriteAction where
  | fileW : String → List Nat → WriteAction
  | zipW : String → List (String × List Nat) → WriteAction
deriving DecidableEq, Repr

/-! ## Archive-entry primitives (archiveutil.go) -/

/-- `eachZipEntry` (archiveutil.go): visit the entries in container order,
rejecting any non-local entry name (`filepath.IsLocal`) before its visit.
The Go visitor's side effects are purified into the state `σ`. -/
def eachZipEntry (f : ZipFile → σ → Except String σ) :
    List ZipFile → σ → Except String σ
  | [], s => .ok s
  | e :: rest, s =>
    if !isLocal e.name then .error ("zip contains non-local path: " ++ e.name)
    else
      match f e s with
      | .error m => .error m
      | .ok s' => eachZipEntry f rest s'

/-- `eachTarEntry` (archiveutil.go): same contract for a tar stream; the
visitor receives the header and a reader scoped to the entry's bytes. -/
def eachTarEntry (f : TarHeader → List Nat → σ → Except String σ) :
    List (TarHeader × List Nat) → σ → Except String σ
  | [], s => .ok s
  | e :: rest, s =>
    if !isLocal e.1.name then .error ("tar contains non-local path: " ++ e.1.name)
    else
      match f e.1 e.2 s with
      | .error m => .error m
      | .ok s' => eachTarEntry f rest s'

/-! ## Archive model -/

/-- `newArchive` (the archive model file): classify a discovered path by its
base filename.  The lazily created scratch directory `os.MkdirTemp` returns
is nondeterministic (random suffix), so it is passed in as `workDir`. -/
def newArchive (p : String) (workDir : String) : Except String Archive :=
  let name := baseName p
  if matchOrPanic "go*.zip" name then
    .ok { path := p, name := name, archiveType := .zipArchive,
          archiveMacOS := matchOrPanic "go*darwin*.tar.gz" name, workDir := workDir }
  else if matchOrPanic "go*.tar.gz" name then
    .ok { path := p, name := name, archiveType := .tarGzArchive,
          archiveMacOS := matchOrPanic "go*darwin*.tar.gz" name, workDir := workDir }
  else .error ("unknown archive type: " ++ p)

/-- `archive.macHardenPackPath`. -/
def macHardenPackPath (a : Archive) : String :=
  joinPath [a.workDir, a.name ++ ".ToSignBundle.zip"]

/-- `archive.entrySignInfo`: signing details for one entry name, or `none`
if the entry does not need to be signed. -/
def entrySignInfo (a : Archive) (name : String) : Option FileToSign :=
  if a.archiveType = .zipArchive then
    if hasSuffix name ".exe" then
      some { originalPath := a.path, fullPath := joinPath [a.workDir, "extract", name],
             authenticode := "Microsoft400", zip := false, macAppName := "" }
    else none
  else if a.archiveMacOS then
    if matchOrPanic "go/bin/*" name || matchOrPanic "go/pkg/tool/*/*" name then
      some { originalPath := a.path, fullPath := "", authenticode := "",
             zip := true, macAppName := "" }
    else none
  else none

/-- `archive.extractMacOSEntriesToZip`: copy every regular-file entry that
needs signing into the bundle zip under its base name, failing on a
duplicate base name.  The zip writer's accumulated entries are the state. -/
def extractMacOSEntriesToZip (a : Archive) (entries : List (TarHeader × List Nat)) :
    Except String (List (String × List Nat)) :=
  eachTarEntry (fun header content s =>
    if header.typeflag ≠ tarTypeReg then .ok s
    else
      match entrySignInfo a header.name with
      | some info =>
        if !info.zip then
          .error ("unexpected file to sign directly rather than include in the zip batch: \""
            ++ header.name ++ "\"")
        else
          if s.any (fun e => e.1 = baseName header.name) then
            .error ("duplicate file name in archive: \"" ++ baseName header.name ++ "\"")
          else .ok (s ++ [(baseName header.name, content)])
      | none => .ok s) entries []

/-- The zip branch of `archive.prepareEntriesToSign`: extract each non-dir
entry that needs signing to the scratch directory (a `WriteAction.fileW` at
its `fullPath`) and collect its signing request. -/
def prepareEntriesToSignZip (a : Archive) (entries : List ZipFile) :
    Except String (List WriteAction × List FileToSign) :=
  match eachZipEntry (fun f s =>
      if f.isDir then .ok s
      else
        match entrySignInfo a f.name with
        | some info => .ok (s.1 ++ [WriteAction.fileW info.fullPath f.content], s.2 ++ [info])
        | none => .ok s)
    entries (([], []) : List WriteAction × List FileToSign) with
  | .error e => .error ("failed to extract file from \"" ++ a.path ++ "\": " ++ e)
  | .ok s => .ok s

/-- The macOS tar.gz branch of `archive.prepareEntriesToSign`: build the
hardening bundle zip and issue the single request against it. -/
def prepareEntriesToSignMac (a : Archive) (entries : List (TarHeader × List Nat)) :
    Except String (List WriteAction × List FileToSign) :=
  let fts : FileToSign :=
    { originalPath := a.path, fullPath := macHardenPackPath a,
      authenticode := "MacDeveloperHarden", zip := false, macAppName := "" }
  match extractMacOSEntriesToZip a entries with
  | .error e => .error ("failed to extract file from \"" ++ a.path ++ "\": " ++ e)
  | .ok bundle => .ok ([WriteAction.zipW (macHardenPackPath a) bundle], [fts])

/-- `archive.prepareEntriesToSign`: dispatch on the container kind; any other
container/platform combination prepares nothing.  `c` is the parse of the
file at `a.path`; the branch mismatch arms model `zip.OpenReader` /
`gzip.NewReader` failing on a file of the other format. -/
def prepareEntriesToSign (a : Archive) (c : ArchiveContents) :
    Except String (List WriteAction × List FileToSign) :=
  if a.archiveType = .zipArchive then
    match c with
    | .zipC entries => prepareEntriesToSignZip a entries
    | .tarC _ => .error ("failed to extract file from \"" ++ a.path ++ "\": zip: not a valid zip file")
  else if a.archiveMacOS then
    match c with
    | .tarC entries => prepareEntriesToSignMac a entries
    | .zipC _ => .error ("failed to extract file from \"" ++ a.path ++ "\": gzip: invalid header")
  else .ok ([], [])

/-- `archive.writeZipRepackEntry`: create the output entry copying the five
metadata fields, sourcing content from the signed file on disk when the
entry's name needs signing and from the original entry otherwise.  `disk`
models the filesystem the signed files were written back to (`os.Open`
fails when the path is absent). -/
def writeZipRepackEntry (a : Archive) (disk : String → Option (List Nat))
    (original : ZipFile) : Except String ZipOutEntry :=
  let hdr : ZipOutEntry :=
    { name := original.name, method := original.method, comment := original.comment,
      modified := original.modified, extra := original.extra, content := [] }
  match entrySignInfo a original.name with
  | some info =>
    match disk info.fullPath with
    | some bytes => .ok { hdr with content := bytes }
    | none => .error ("open " ++ info.fullPath ++ ": no such file or directory")
  | none => .ok { hdr with content := original.content }

/-- The zip branch of `archive.repackSignedEntries`: rebuild the container
entry-for-entry via `writeZipRepackEntry`. -/
def repackSignedEntriesZip (a : Archive) (disk : String → Option (List Nat))
    (originals : List ZipFile) : Except String (List ZipOutEntry) :=
  eachZipEntry (fun f s =>
      match writeZipRepackEntry a disk f with
      | .error m => .error m
      | .ok e => .ok (s ++ [e]))
    originals []

/-- The fresh header `writeTarRepackEntry` constructs: the documented-safe
fields (name, link target, size, mode, ownership ids and names, the three
timestamps) copied from the original, every other field — `Typeflag`
included — left at its zero value. -/
def tarCopyHeader (hdr : TarHeader) : TarHeader :=
  { typeflag := 0, name := hdr.name, linkname := hdr.linkname,
    size := hdr.size, mode := hdr.mode, uid := hdr.uid, gid := hdr.gid,
    uname := hdr.uname, gname := hdr.gname,
    modTime := hdr.modTime, accessTime := hdr.accessTime, changeTime := hdr.changeTime }

/-- `archive.writeTarRepackEntry`: copy the documented-safe header fields
into a fresh header; for a regular-file entry that needs signing, open its
base name inside the signer-returned zip `signedPack`, override the size
with that file's actual size and stream its bytes; write a body only for
regular-file entries. -/
def writeTarRepackEntry (a : Archive) (signedPack : List (String × List Nat))
    (hdr : TarHeader) (content : List Nat) : Except String TarOutEntry :=
  let newHeader : TarHeader := tarCopyHeader hdr
  let isFile := hdr.typeflag = tarTypeReg
  if (entrySignInfo a hdr.name).isSome ∧ isFile then
    match signedPack.lookup (baseName hdr.name) with
    | none => .error ("open " ++ baseName hdr.name ++ ": file does not exist")
    | some bytes =>
      .ok { header := { newHeader with size := (bytes.length : Int) }, body := some bytes }
  else
    .ok { header := newHeader, body := if isFile then some content else none }

/-- The macOS tar.gz branch of `archive.repackSignedEntries`: rebuild the
tar entry-for-entry via `writeTarRepackEntry` against the signer-returned
bundle zip. -/
def repackSignedEntriesMac (a : Archive) (signedPack : List (String × List Nat))
    (originals : List (TarHeader × List Nat)) : Except String (List TarOutEntry) :=
  eachTarEntry (fun hdr content s =>
      match writeTarRepackEntry a signedPack hdr content with
      | .error m => .error m
      | .ok e => .ok (s ++ [e]))
    originals []

/-! ## Signing-batch orchestrator (sign.go) -/

/-- The loop body of `findArchives`: skip checksum sidecars, reject a
duplicate lowercase base filename against the `seen` map, classify via
`newArchive`.  `w` supplies each archive's scratch directory (the
`os.MkdirTemp` result). -/
def findArchivesLoop (w : String → String) (seen : List (String × String))
    (acc : List Archive) : List String → Except String (List Archive)
  | [] => .ok acc
  | f :: rest =>
    if hasSuffix f ".sha256" then findArchivesLoop w seen acc rest
    else
      let filenameLower := toLowerStr (baseName f)
      match seen.lookup filenameLower with
      | some existingF =>
        .error ("duplicate archive \"" ++ f ++ "\", already found \"" ++ existingF
          ++ "\" (comparing lowercase filename)")
      | none =>
        match newArchive f (w f) with
        | .error e => .error ("failed to process \"" ++ f ++ "\": " ++ e)
        | .ok a => findArchivesLoop w (seen ++ [(filenameLower, f)]) (acc ++ [a]) rest

/-- `findArchives` (sign.go): `files` is the sorted result of expanding
`glob`; an empty archive list is an error. -/
def findArchives (w : String → String) (glob : String) (files : List String) :
    Except String (List Archive) :=
  match findArchivesLoop w [] [] files with
  | .error e => .error e
  | .ok archives =>
    if archives.length = 0 then
      .error ("no archives found to sign matching glob \"" ++ glob ++ "\"")
    else .ok archives

/-- `fileToSign.WriteMSBuildItem`: one `<FilesToSign .../>` line of the
signing props manifest. -/
def msbuildItem (f : FileToSign) : String :=
  "    <FilesToSign Include=\"" ++ f.fullPath ++ "\" Authenticode=\"" ++ f.authenticode ++ "\""
    ++ (if f.zip then " Zip=\"true\"" else "")
    ++ (if f.macAppName ≠ "" then " MacAppName=\"" ++ f.macAppName ++ "\"" else "")
    ++ " />\n"

/-- The props-file content `sign` builds for one phase (the manifest handed
to the external signer; in dry-run mode it is only logged). -/
def signPropsContent (files : List FileToSign) : String :=
  "<Project>\n  <ItemGroup>\n" ++ String.join (files.map msbuildItem)
    ++ "  </ItemGroup>\n</Project>\n"

/-- `flatMapSlice` (sign.go). -/
def flatMapSlice (es : List α) (f : α → Except String (List β)) :
    Except String (List β) :=
  match es with
  | [] => .ok []
  | e :: rest =>
    match f e with
    | .error err => .error err
    | .ok rs =>
      match flatMapSlice rest f with
      | .error err => .error err
      | .ok more => .ok (rs ++ more)

/-- The signing requests one archive contributes to phase 1. -/
def prepareRequests (a : Archive) (c : ArchiveContents) : Except String (List FileToSign) :=
  match prepareEntriesToSign a c with
  | .error e => .error e
  | .ok r => .ok r.2

/-- The phase-1 request manifest of `run` (sign.go): discover the archives,
then collect every archive's prepared requests in discovery order.
`contents` is the filesystem's parse of each archive path. -/
def phase1Requests (w : String → String) (glob : String) (files : List String)
    (contents : String → ArchiveContents) : Except String (List FileToSign) :=
  match findArchives w glob files with
  | .error e => .error e
  | .ok archives => flatMapSlice archives (fun a => prepareRequests a (contents a.path))

/-! ## Checksum emitter (checksum.go) and its SHA-256 (crypto/sha256) -/

/-- Truncate to a 32-bit word. -/
def w32 (n : Nat) : Nat := n % 4294967296

/-- 32-bit rotate right. -/
def rotr32 (x n : Nat) : Nat := (x >>> n) ||| w32 (x <<< (32 - n))

/-- SHA-256 choice function. -/
def sha256Ch (x y z : Nat) : Nat := (x &&& y) ^^^ ((x ^^^ 4294967295) &&& z)

/-- SHA-256 majority function. -/
def sha256Maj (x y z : Nat) : Nat := (x &&& y) ^^^ (x &&& z) ^^^ (y &&& z)

/-- SHA-256 big sigma 0. -/
def bigSigma0 (x : Nat) : Nat := rotr32 x 2 ^^^ rotr32 x 13 ^^^ rotr32 x 22

/-- SHA-256 big sigma 1. -/
def bigSigma1 (x : Nat) : Nat := rotr32 x 6 ^^^ rotr32 x 11 ^^^ rotr32 x 25

/-- SHA-256 small sigma 0. -/
def smallSigma0 (x : Nat) : Nat := rotr32 x 7 ^^^ rotr32 x 18 ^^^ (x >>> 3)

/-- SHA-256 small sigma 1. -/
def smallSigma1 (x : Nat) : Nat := rotr32 x 17 ^^^ rotr32 x 19 ^^^ (x >>> 10)

/-- The SHA-256 round constants (the fractional parts of the cube roots of
the first 64 primes, as 32-bit words, written here in decimal). -/
def sha256K : List Nat :=
  [1116352408, 1899447441, 3049323471, 3921009573, 961987163,
   1508970993, 2453635748, 2870763221, 3624381080, 310598401,
   607225278, 1426881987, 1925078388, 2162078206, 2614888103,
   3248222580, 3835390401, 4022224774, 264347078, 604807628,
   770255983, 1249150122, 1555081692, 1996064986, 2554220882,
   2821834349, 2952996808, 3210313671, 3336571891, 3584528711,
   113926993, 338241895, 666307205, 773529912, 1294757372,
   1396182291, 1695183700, 1986661051, 2177026350, 2456956037,
   2730485921, 2820302411, 3259730800, 3345764771, 3516065817,
   3600352804, 4094571909, 275423344, 430227734, 506948616,
   659060556, 883997877, 958139571, 1322822218, 1537002063,
   1747873779, 1955562222, 2024104815, 2227730452, 2361852424,
   2428436474, 2756734187, 3204031479, 3329325298]

/-- The eight 32-bit words of a SHA-256 state. -/
structure H8 where
  a : Nat
  b : Nat
  c : Nat
  d : Nat
  e : Nat
  f : Nat
  g : Nat
  h : Nat
deriving DecidableEq, Repr

/-- The SHA-256 initial state. -/
def sha256H0 : H8 :=
  ⟨1779033703, 3144134277, 1013904242, 2773480762, 1359893119, 2600822924, 528734635, 1541459225⟩

/-- Big-endian 32-bit word `i` of a 64-byte block. -/
def beWord (block : List Nat) (i : Nat) : Nat :=
  w32 ((block.getD (4 * i) 0 <<< 24) + (block.getD (4 * i + 1) 0 <<< 16)
    + (block.getD (4 * i + 2) 0 <<< 8) + block.getD (4 * i + 3) 0)

/-- Extend a partial message schedule by its next word. -/
def scheduleStep (ws : List Nat) : List Nat :=
  ws ++ [w32 (smallSigma1 (ws.getD (ws.length - 2) 0) + ws.getD (ws.length - 7) 0
    + smallSigma0 (ws.getD (ws.length - 15) 0) + ws.getD (ws.length - 16) 0)]

/-- The 64-word message schedule of one block. -/
def sha256Schedule (block : List Nat) : List Nat :=
  (List.range 48).foldl (fun ws _ => scheduleStep ws) ((List.range 16).map (beWord block))

/-- One SHA-256 compression round. -/
def compressStep (st : H8) (kw : Nat × Nat) : H8 :=
  let t1 := w32 (st.h + bigSigma1 st.e + sha256Ch st.e st.f st.g + kw.1 + kw.2)
  let t2 := w32 (bigSigma0 st.a + sha256Maj st.a st.b st.c)
  { a := w32 (t1 + t2), b := st.a, c := st.b, d := st.c,
    e := w32 (st.d + t1), f := st.e, g := st.f, h := st.g }

/-- Process one 64-byte block. -/
def processBlock (st : H8) (block : List Nat) : H8 :=
  let fin := (sha256K.zip (sha256Schedule block)).foldl compressStep st
  { a := w32 (st.a + fin.a), b := w32 (st.b + fin.b), c := w32 (st.c + fin.c),
    d := w32 (st.d + fin.d), e := w32 (st.e + fin.e), f := w32 (st.f + fin.f),
    g := w32 (st.g + fin.g), h := w32 (st.h + fin.h) }

/-- SHA-256 padding: `0x80`, zeros, then the 64-bit big-endian bit length,
to a multiple of 64 bytes. -/
def sha256Pad (msg : List Nat) : List Nat :=
  let len := msg.length
  let zeros := (64 - (len + 9) % 64) % 64
  msg ++ [128] ++ List.replicate zeros 0
    ++ (List.range 8).map (fun i => ((len * 8) >>> (8 * (7 - i))) % 256)

/-- Split a byte list into 64-byte chunks (structurally, one byte at a
time; `cur` is the block under construction). -/
def chunks64 (cur : List Nat) : List Nat → List (List Nat)
  | [] => if cur = [] then [] else [cur]
  | x :: xs =>
    if cur.length = 63 then (cur ++ [x]) :: chunks64 [] xs
    else chunks64 (cur ++ [x]) xs

/-- The four big-endian bytes of a 32-bit word. -/
def word2bytes (x : Nat) : List Nat :=
  [(x >>> 24) % 256, (x >>> 16) % 256, (x >>> 8) % 256, x % 256]

/-- `crypto/sha256`: the 32-byte SHA-256 digest of a byte list. -/
def sha256 (msg : List Nat) : List Nat :=
  let fin := (chunks64 [] (sha256Pad msg)).foldl processBlock sha256H0
  word2bytes fin.a ++ word2bytes fin.b ++ word2bytes fin.c ++ word2bytes fin.d
    ++ word2bytes fin.e ++ word2bytes fin.f ++ word2bytes fin.g ++ word2bytes fin.h

/-- `encoding/hex`'s digit table (lowercase). -/
def hextable : List Char := "0123456789abcdef".data

/-- `encoding/hex.EncodeToString`: two lowercase hex digits per byte. -/
def hexEncode (bs : List Nat) : String :=
  String.mk (bs.foldr (fun b acc => hextable.getD (b / 16) '0' :: hextable.getD (b % 16) '0' :: acc) [])

/-- `checksum.WriteSHA256ChecksumFile`: for the file at `path` with bytes
`fileBytes`, the sidecar path written (`path + ".sha256"`) and its content
(`"<hex digest>  <base filename>\n"`). -/
def writeSHA256ChecksumFile (path : String) (fileBytes : List Nat) : String × String :=
  (path ++ ".sha256", hexEncode (sha256 fileBytes) ++ "  " ++ baseName path ++ "\n")

/-! ## Statement abbreviations

Short names for expressions of the model, used to state the claims. -/

/-- The scratch path `entrySignInfo` extracts a zip entry to:
`filepath.Join(workDir, "extract", name)`. -/
def zipExtractPath (a : Archive) (name : String) : String :=
  joinPath [a.workDir, "extract", name]

/-- The signing request `entrySignInfo` builds for a zip entry. -/
def zipRequest (a : Archive) (name : String) : FileToSign :=
  { originalPath := a.path, fullPath := zipExtractPath a name,
    authenticode := "Microsoft400", zip := false, macAppName := "" }

/-- A zip entry the prepare phase selects: a non-directory entry whose name
ends in the native-executable suffix. -/
def zipSignable (f : ZipFile) : Bool :=
  !f.isDir && hasSuffix f.name ".exe"

/-- The two path globs selecting macOS entries to harden. -/
def macEntryGlobs (name : String) : Bool :=
  matchOrPanic "go/bin/*" name || matchOrPanic "go/pkg/tool/*/*" name

/-- A tar entry included in the macOS hardening bundle: a regular file
under one of the two globs. -/
def macSignable (h : TarHeader) : Bool :=
  (h.typeflag == tarTypeReg) && macEntryGlobs h.name

/-- The single request the macOS branch of the prepare phase issues. -/
def macBundleRequest (a : Archive) : FileToSign :=
  { originalPath := a.path, fullPath := macHardenPackPath a,
    authenticode := "MacDeveloperHarden", zip := false, macAppName := "" }

/-- A manifest record without its scratch-directory-dependent on-disk path:
original archive, signing profile, zip-payload flag, notarization app name. -/
def stripW (f : FileToSign) : String × String × Bool × String :=
  (f.originalPath, f.authenticode, f.zip, f.macAppName)

/-- An archive without its scratch directory: the fields `newArchive`
derives deterministically from the discovered path alone. -/
def archiveProj (a : Archive) : String × String × ArchiveType × Bool :=
  (a.path, a.name, a.archiveType, a.archiveMacOS)

/-! ## Concrete fixtures used by witnesses and counterexamples -/

/-- A Windows release archive (scenario A). -/
def winArchive : Archive :=
  { path := "eng/signing/tosign/go1.23.3.windows-amd64.zip",
    name := "go1.23.3.windows-amd64.zip", archiveType := .zipArchive,
    archiveMacOS := false, workDir := "/tmp/sign-work-win" }

/-- The native executable inside the scenario-A archive. -/
def winExeEntry : ZipFile :=
  { name := "go/bin/go.exe", isDir := false, method := 8, comment := "c",
    modified := 100, extra := [1, 2], content := [10, 11] }

/-- A non-executable document inside the scenario-A archive. -/
def winHtmlEntry : ZipFile :=
  { name := "go/doc/go.html", isDir := false, method := 8, comment := "",
    modified := 200, extra := [], content := [12] }

/-- A macOS release archive (scenario B). -/
def macArchive : Archive :=
  { path := "eng/signing/tosign/go1.23.3.darwin-amd64.tar.gz",
    name := "go1.23.3.darwin-amd64.tar.gz", archiveType := .tarGzArchive,
    archiveMacOS := true, workDir := "/tmp/sign-work-mac" }

/-- A regular-file tar header. -/
def regHeader (name : String) (size : Int) : TarHeader :=
  { typeflag := tarTypeReg, name := name, linkname := "", size := size, mode := 493,
    uid := 0, gid := 0, uname := "u", gname := "g",
    modTime := 11, accessTime := 12, changeTime := 13 }

/-- A directory tar header (`tar.TypeDir`, the byte `'5'`). -/
def dirHeader (name : String) : TarHeader :=
  { regHeader name 0 with typeflag := 53 }

/-- A zip entry whose mode bits mark it a directory although its name ends
in `.exe` (legal in the zip format: the directory bit lives in the external
attributes). -/
def cexDirEntry : ZipFile :=
  { name := "go/tool.exe", isDir := true, method := 8, comment := "",
    modified := 0, extra := [], content := [1] }

/-- A disk state holding a (stale) signed file at the extraction path of
`cexDirEntry`. -/
def cexDisk : String → Option (List Nat) :=
  fun p => if p = "/tmp/sign-work-win/extract/go/tool.exe" then some [9, 9] else none

/-- Scenario-A disk state: the signed stand-in for `go/bin/go.exe`. -/
def winDisk : String → Option (List Nat) :=
  fun p => if p = "/tmp/sign-work-win/extract/go/bin/go.exe" then some [20, 21, 22] else none

/-- Scratch directory assignments for two dry-run executions: `os.MkdirTemp`
returns a differently random-suffixed directory each run. -/
def runAWorkDirs : String → String := fun _ => "/tmp/sign-work-go1.23.3.windows-amd64.zip111"

/-- Second run's scratch directory assignment. -/
def runBWorkDirs : String → String := fun _ => "/tmp/sign-work-go1.23.3.windows-amd64.zip222"

/-- The files the discovery glob expands to in the dry-run scenario. -/
def dryRunFiles : List String := ["eng/signing/tosign/go1.23.3.windows-amd64.zip"]

/-- The filesystem contents for the dry-run scenario. -/
def dryRunContents : String → ArchiveContents := fun _ => .zipC [winExeEntry]

/-! ## Proof-side helper lemmas -/

/-- Running `eachZipEntry` up to a non-local entry: the iteration is exactly
the iteration over the prefix followed by the path-safety error — the bad
entry and everything after it are never visited, whatever the visitor does
there. -/
theorem eachZipEntry_split {σ : Type} (f : ZipFile → σ → Except String σ)
    (pre : List ZipFile) (bad : ZipFile) (post : List ZipFile) (s : σ)
    (hbad : isLocal bad.name = false) :
    eachZipEntry f (pre ++ bad :: post) s =
      match eachZipEntry f pre s with
      | .ok _ => .error ("zip contains non-local path: " ++ bad.name)
      | .error m => .error m := by
  induction pre generalizing s with
  | nil => simp [eachZipEntry, hbad]
  | cons e rest ih =>
    simp only [List.cons_append, eachZipEntry]
    cases hl : isLocal e.name with
    | false => simp
    | true =>
      simp only [Bool.not_true, Bool.false_eq_true, if_false]
      cases f e s with
      | error m => rfl
      | ok s' => exact ih s'

/-- `eachTarEntry` version of `eachZipEntry_split`. -/
theorem eachTarEntry_split {σ : Type} (f : TarHeader → List Nat → σ → Except String σ)
    (pre : List (TarHeader × List Nat)) (bad : TarHeader × List Nat)
    (post : List (TarHeader × List Nat)) (s : σ)
    (hbad : isLocal bad.1.name = false) :
    eachTarEntry f (pre ++ bad :: post) s =
      match eachTarEntry f pre s with
      | .ok _ => .error ("tar contains non-local path: " ++ bad.1.name)
      | .error m => .error m := by
  induction pre generalizing s with
  | nil => simp [eachTarEntry, hbad]
  | cons e rest ih =>
    simp only [List.cons_append, eachTarEntry]
    cases hl : isLocal e.1.name with
    | false => simp
    | true =>
      simp only [Bool.not_true, Bool.false_eq_true, if_false]
      cases f e.1 e.2 s with
      | error m => rfl
      | ok s' => exact ih s'

/-! ## Claim theorems -/

/-- C5: for every zip or tar container being iterated, an entry whose name
fails the path-safety check (absolute, or escaping via `..` — `isLocal`
false) aborts the iteration with a path-safety error: the whole run equals
the run over the entries before the offending one followed by the error, so
the visitor is never called on that entry or any later entry and no file is
written on their behalf. -/
theorem C5_path_safety_aborts {σ τ : Type}
    (fz : ZipFile → σ → Except String σ)
    (ft : TarHeader → List Nat → τ → Except String τ)
    (preZ : List ZipFile) (badZ : ZipFile) (postZ : List ZipFile) (s0 : σ)
    (preT : List (TarHeader × List Nat)) (badT : TarHeader × List Nat)
    (postT : List (TarHeader × List Nat)) (t0 : τ)
    (hz : isLocal badZ.name = false) (ht : isLocal badT.1.name = false) :
    (eachZipEntry fz (preZ ++ badZ :: postZ) s0 =
      match eachZipEntry fz preZ s0 with
      | .ok _ => .error ("zip contains non-local path: " ++ badZ.name)
      | .error m => .error m) ∧
    (eachTarEntry ft (preT ++ badT :: postT) t0 =
      match eachTarEntry ft preT t0 with
      | .ok _ => .error ("tar contains non-local path: " ++ badT.1.name)
      | .error m => .error m) :=
  ⟨eachZipEntry_split fz preZ badZ postZ s0 hz,
   eachTarEntry_split ft preT badT postT t0 ht⟩

/-- Witness for C5 at concrete input: iterating a zip whose second entry is
the absolute name `/etc/passwd` (resp. a tar whose second entry name
escapes via `..`) with a visitor that logs the names it sees errors out,
having visited only the first entry. -/
theorem C5_path_safety_aborts_witness :
    isLocal "/etc/passwd" = false ∧ isLocal "go/../../x" = false ∧
    eachZipEntry (fun e (s : List String) => .ok (s ++ [e.name]))
        [winHtmlEntry, { winHtmlEntry with name := "/etc/passwd" }, winExeEntry] [] =
      .error "zip contains non-local path: /etc/passwd" ∧
    eachTarEntry (fun h _ (s : List String) => .ok (s ++ [h.name]))
        [(regHeader "go/bin/go" 1, [1]), (regHeader "go/../../x" 1, [2])] [] =
      .error "tar contains non-local path: go/../../x" := by
  refine ⟨by decide, by decide, ?_, ?_⟩
  · exact (C5_path_safety_aborts
      (fun e (s : List String) => .ok (s ++ [e.name]))
      (fun h _ (s : List String) => .ok (s ++ [h.name]))
      [winHtmlEntry] { winHtmlEntry with name := "/etc/passwd" } [winExeEntry] []
      [(regHeader "go/bin/go" 1, [1])] (regHeader "go/../../x" 1, [2]) [] []
      (by decide) (by decide)).1.trans (by decide)
  · exact (C5_path_safety_aborts
      (fun e (s : List String) => .ok (s ++ [e.name]))
      (fun h _ (s : List String) => .ok (s ++ [h.name]))
      [winHtmlEntry] { winHtmlEntry with name := "/etc/passwd" } [winExeEntry] []
      [(regHeader "go/bin/go" 1, [1])] (regHeader "go/../../x" 1, [2]) [] []
      (by decide) (by decide)).2.trans (by decide)

/-- Every remainder a `*` may leave is a suffix of the name. -/
theorem nonSlashSuffixes_suffix {r s : List Char} (h : r ∈ nonSlashSuffixes s) : r <:+ s := by
  induction s with
  | nil =>
    simp only [nonSlashSuffixes, List.mem_singleton] at h
    simp [h]
  | cons c s ih =>
    simp only [nonSlashSuffixes, List.mem_cons] at h
    rcases h with h | h
    · exact h ▸ List.suffix_refl _
    · by_cases hc : c = '/'
      · simp [hc] at h
      · simp only [hc, if_false] at h
        exact (ih h).trans (List.suffix_cons c s)

/-- A glob pattern ending in a literal character only matches names ending
in that character. -/
theorem globMatch_last (c : Char) (hc : c ≠ '*') :
    ∀ (p s : List Char), globMatch (p ++ [c]) s = true → s.getLast? = some c := by
  intro p
  induction p with
  | nil =>
    intro s h
    simp only [List.nil_append, globMatch, hc, if_false] at h
    cases s with
    | nil => simp at h
    | cons d s' =>
      simp only [globMatch, Bool.and_eq_true, decide_eq_true_eq, List.isEmpty_iff] at h
      obtain ⟨rfl, rfl⟩ := h
      rfl
  | cons a p' ih =>
    intro s h
    simp only [List.cons_append, globMatch] at h
    by_cases ha : a = '*'
    · simp only [ha, if_true, List.any_eq_true] at h
      obtain ⟨r, hr, hm⟩ := h
      have hlast := ih r hm
      obtain ⟨t, rfl⟩ := nonSlashSuffixes_suffix hr
      have hne : r ≠ [] := by
        intro hnil
        rw [hnil] at hlast
        simp at hlast
      rw [List.getLast?_append_of_ne_nil t hne]
      exact hlast
    · simp only [ha, if_false] at h
      cases s with
      | nil => simp at h
      | cons d s' =>
        simp only [Bool.and_eq_true, decide_eq_true_eq] at h
        have hlast := ih s' h.2
        have hne : s' ≠ [] := by
          intro hnil
          rw [hnil] at hlast
          simp at hlast
        have : d :: s' = [d] ++ s' := rfl
        rw [this, List.getLast?_append_of_ne_nil [d] hne]
        exact hlast

/-- No name matches both the zip pattern and the darwin tar.gz pattern:
the first forces a trailing `p`, the second a trailing `z`. -/
theorem zip_darwin_exclusive (n : String) (hz : matchOrPanic "go*.zip" n = true)
    (hd : matchOrPanic "go*darwin*.tar.gz" n = true) : False := by
  have h1 : n.data.getLast? = some 'p' :=
    globMatch_last 'p' (by decide) ['g', 'o', '*', '.', 'z', 'i'] n.data hz
  have h2 : n.data.getLast? = some 'z' :=
    globMatch_last 'z' (by decide)
      ['g', 'o', '*', 'd', 'a', 'r', 'w', 'i', 'n', '*', '.', 't', 'a', 'r', '.', 'g'] n.data hd
  rw [h1] at h2
  simp at h2

/-- C8: a successfully classified archive has exactly one container kind,
and its macOS flag is true only when the kind is gzip-tar and the base
filename matches the darwin tar.gz pattern; a path matching neither naming
pattern fails classification with an error. -/
theorem C8_classification_invariant (p wd : String) :
    (∀ a, newArchive p wd = .ok a →
      (a.archiveType = .zipArchive ∨ a.archiveType = .tarGzArchive) ∧
      (a.archiveMacOS = true →
        a.archiveType = .tarGzArchive ∧ matchOrPanic "go*darwin*.tar.gz" a.name = true)) ∧
    (matchOrPanic "go*.zip" (baseName p) = false →
      matchOrPanic "go*.tar.gz" (baseName p) = false →
      newArchive p wd = .error ("unknown archive type: " ++ p)) := by
  constructor
  · intro a ha
    unfold newArchive at ha
    by_cases h1 : matchOrPanic "go*.zip" (baseName p) = true
    · simp only [h1, if_true, Except.ok.injEq] at ha
      subst ha
      refine ⟨Or.inl rfl, fun hm => absurd hm ?_⟩
      simp only [Bool.not_eq_true]
      cases hdm : matchOrPanic "go*darwin*.tar.gz" (baseName p) with
      | false => rfl
      | true => exact absurd (zip_darwin_exclusive (baseName p) h1 hdm) not_false
    · by_cases h2 : matchOrPanic "go*.tar.gz" (baseName p) = true
      · simp only [h1, h2, Bool.false_eq_true, if_false, if_true, Except.ok.injEq] at ha
        subst ha
        exact ⟨Or.inr rfl, fun hm => ⟨rfl, hm⟩⟩
      · simp only [h1, h2, Bool.false_eq_true, if_false] at ha
        exact Except.noConfusion ha
  · intro h1 h2
    unfold newArchive
    simp [h1, h2]

/-- Witness for C8 at concrete input: the darwin tar.gz archive carries the
gzip-tar kind with the macOS flag, and a path matching no pattern fails. -/
theorem C8_classification_invariant_witness :
    macArchive.archiveType = .tarGzArchive ∧
    matchOrPanic "go*darwin*.tar.gz" macArchive.name = true ∧
    newArchive "eng/signing/tosign/readme.txt" "/w" =
      .error "unknown archive type: eng/signing/tosign/readme.txt" := by
  have h1 := ((C8_classification_invariant
      "eng/signing/tosign/go1.23.3.darwin-amd64.tar.gz" "/tmp/sign-work-mac").1
      macArchive (by decide)).2 (by decide)
  have h2 := (C8_classification_invariant "eng/signing/tosign/readme.txt" "/w").2
      (by decide) (by decide)
  exact ⟨h1.1, h1.2, h2.trans (by decide)⟩

/-- Skipping every checksum sidecar leaves the discovery loop's accumulator
unchanged. -/
theorem findArchivesLoop_all_sha (w : String → String) :
    ∀ (files : List String) (seen : List (String × String)) (acc : List Archive),
      (∀ f ∈ files, hasSuffix f ".sha256" = true) →
      findArchivesLoop w seen acc files = .ok acc := by
  intro files
  induction files with
  | nil => intro seen acc _; rfl
  | cons f rest ih =>
    intro seen acc h
    have hf := h f (List.mem_cons_self f rest)
    simp only [findArchivesLoop, hf, if_true]
    exact ih seen acc (fun g hg => h g (List.mem_cons_of_mem f hg))

/-- C10: when the discovery glob matches no files, or only checksum
sidecars ending in `.sha256` (which are skipped), discovery returns the
no-archives error rather than an empty archive list. -/
theorem C10_empty_discovery_fails (w : String → String) (glob : String)
    (files : List String) (h : ∀ f ∈ files, hasSuffix f ".sha256" = true) :
    findArchives w glob files =
      .error ("no archives found to sign matching glob \"" ++ glob ++ "\"") := by
  unfold findArchives
  rw [findArchivesLoop_all_sha w files [] [] h]
  rfl

/-- Witness for C10 at concrete input: a glob result holding one stale
checksum sidecar (and nothing else) fails discovery. -/
theorem C10_empty_discovery_fails_witness :
    hasSuffix "eng/signing/tosign/go1.23.3.linux-amd64.tar.gz.sha256" ".sha256" = true ∧
    findArchives (fun _ => "/w") "eng/signing/tosign/*"
        ["eng/signing/tosign/go1.23.3.linux-amd64.tar.gz.sha256"] =
      .error "no archives found to sign matching glob \"eng/signing/tosign/*\"" :=
  ⟨by decide,
   (C10_empty_discovery_fails (fun _ => "/w") "eng/signing/tosign/*"
      ["eng/signing/tosign/go1.23.3.linux-amd64.tar.gz.sha256"] (by decide)).trans (by decide)⟩

/-- The SHA-256 digest is 32 bytes long. -/
theorem sha256_length (msg : List Nat) : (sha256 msg).length = 32 := by
  simp [sha256, word2bytes]

/-- Every SHA-256 digest byte is below 256. -/
theorem sha256_lt (msg : List Nat) : ∀ b ∈ sha256 msg, b < 256 := by
  have hw : ∀ x : Nat, ∀ b ∈ word2bytes x, b < 256 := by
    intro x b hb
    simp only [word2bytes, List.mem_cons, List.not_mem_nil, or_false] at hb
    rcases hb with h | h | h | h <;> subst h <;> exact Nat.mod_lt _ (by omega)
  intro b hb
  simp only [sha256, List.mem_append] at hb
  rcases hb with ((((((h | h) | h) | h) | h) | h) | h) | h <;> exact hw _ _ h

/-- Hex encoding yields two characters per byte. -/
theorem hexEncode_length (bs : List Nat) : (hexEncode bs).length = 2 * bs.length := by
  show (hexEncode bs).data.length = 2 * bs.length
  induction bs with
  | nil => rfl
  | cons b rest ih =>
    show (hextable.getD (b / 16) '0' :: hextable.getD (b % 16) '0' ::
      (hexEncode rest).data).length = 2 * (b :: rest).length
    simp only [List.length_cons, ih, List.length] 
    omega

/-- Indexing the hex digit table with any index and default gives a table
character. -/
theorem hexDigit_mem (k : Nat) : hextable.getD k '0' ∈ hextable := by
  by_cases hk : k < hextable.length
  · rw [List.getD_eq_getElem hextable '0' hk]
    exact List.getElem_mem hk
  · rw [List.getD_eq_default hextable '0' (by omega)]
    decide

/-- Every character of a hex encoding is a lowercase hex digit. -/
theorem hexEncode_mem (bs : List Nat) : ∀ c ∈ (hexEncode bs).data, c ∈ hextable := by
  induction bs with
  | nil => intro c hc; exact absurd hc (List.not_mem_nil c)
  | cons b rest ih =>
    intro c hc
    have : (hexEncode (b :: rest)).data = hextable.getD (b / 16) '0' ::
        hextable.getD (b % 16) '0' :: (hexEncode rest).data := rfl
    rw [this] at hc
    simp only [List.mem_cons] at hc
    rcases hc with rfl | rfl | hc
    · exact hexDigit_mem (b / 16)
    · exact hexDigit_mem (b % 16)
    · exact ih c hc

/-- C9: for every published file, the checksum emitter writes the sidecar
at the published path plus the `.sha256` suffix, containing exactly one
line — the 64-character lowercase-hex SHA-256 digest of the file's bytes,
two spaces, then the file's base filename — terminated by a newline.
(The hypothesis that the base filename holds no newline is what "one line"
presupposes; release archive names satisfy it.) -/
theorem C9_checksum_sidecar_format (path : String) (fileBytes : List Nat)
    (hbase : '\n' ∉ (baseName path).data) :
    (writeSHA256ChecksumFile path fileBytes).1 = path ++ ".sha256" ∧
    (writeSHA256ChecksumFile path fileBytes).2 =
      hexEncode (sha256 fileBytes) ++ "  " ++ baseName path ++ "\n" ∧
    (hexEncode (sha256 fileBytes)).length = 64 ∧
    (∀ c ∈ (hexEncode (sha256 fileBytes)).data, c ∈ hextable) ∧
    (writeSHA256ChecksumFile path fileBytes).2.data.count '\n' = 1 ∧
    (writeSHA256ChecksumFile path fileBytes).2.data.getLast? = some '\n' := by
  refine ⟨rfl, rfl, ?_, hexEncode_mem (sha256 fileBytes), ?_, ?_⟩
  · rw [hexEncode_length, sha256_length]
  · show (hexEncode (sha256 fileBytes) ++ "  " ++ baseName path ++ "\n").data.count '\n' = 1
    simp only [String.data_append, List.count_append]
    have h1 : (hexEncode (sha256 fileBytes)).data.count '\n' = 0 := by
      rw [List.count_eq_zero]
      intro hmem
      exact absurd (hexEncode_mem (sha256 fileBytes) '\n' hmem) (by decide)
    have h2 : (baseName path).data.count '\n' = 0 := List.count_eq_zero.mpr hbase
    rw [h1, h2]
    rfl
  · show (hexEncode (sha256 fileBytes) ++ "  " ++ baseName path ++ "\n").data.getLast? =
      some '\n'
    simp only [String.data_append]
    rw [List.append_assoc, List.append_assoc,
      @List.getLast?_append_of_ne_nil _ (hexEncode (sha256 fileBytes)).data
        ("  ".data ++ ((baseName path).data ++ "\n".data)) (by simp),
      @List.getLast?_append_of_ne_nil _ "  ".data
        ((baseName path).data ++ "\n".data) (by simp),
      @List.getLast?_append_of_ne_nil _ (baseName path).data "\n".data (by simp)]
    rfl

/-- Witness for C9 at concrete input: the sidecar for a published Linux
archive (with empty file bytes). -/
theorem C9_checksum_sidecar_format_witness :
    '\n' ∉ (baseName "eng/signing/signed/go1.23.3.linux-amd64.tar.gz").data ∧
    ((writeSHA256ChecksumFile "eng/signing/signed/go1.23.3.linux-amd64.tar.gz" []).1 =
        "eng/signing/signed/go1.23.3.linux-amd64.tar.gz" ++ ".sha256" ∧
      (writeSHA256ChecksumFile "eng/signing/signed/go1.23.3.linux-amd64.tar.gz" []).2 =
        hexEncode (sha256 []) ++ "  "
          ++ baseName "eng/signing/signed/go1.23.3.linux-amd64.tar.gz" ++ "\n" ∧
      (hexEncode (sha256 [])).length = 64 ∧
      (∀ c ∈ (hexEncode (sha256 [])).data, c ∈ hextable) ∧
      (writeSHA256ChecksumFile "eng/signing/signed/go1.23.3.linux-amd64.tar.gz" []).2.data.count
        '\n' = 1 ∧
      (writeSHA256ChecksumFile
        "eng/signing/signed/go1.23.3.linux-amd64.tar.gz" []).2.data.getLast? = some '\n') :=
  ⟨by decide, C9_checksum_sidecar_format "eng/signing/signed/go1.23.3.linux-amd64.tar.gz" []
    (by decide)⟩

/-- On a zip archive, `entrySignInfo` is decided by the `.exe` suffix. -/
theorem entrySignInfo_zip (a : Archive) (hz : a.archiveType = .zipArchive) (name : String) :
    entrySignInfo a name =
      if hasSuffix name ".exe" then some (zipRequest a name) else none := by
  simp [entrySignInfo, hz, zipRequest, zipExtractPath]

/-- The zip prepare loop appends one extraction and one request per
signable entry, in container order. -/
theorem prepareZip_loop (a : Archive) (hz : a.archiveType = .zipArchive) :
    ∀ (entries : List ZipFile) (s : List WriteAction × List FileToSign),
      (∀ f ∈ entries, isLocal f.name = true) →
      eachZipEntry (fun f s =>
        if f.isDir then .ok s
        else
          match entrySignInfo a f.name with
          | some info => .ok (s.1 ++ [WriteAction.fileW info.fullPath f.content], s.2 ++ [info])
          | none => .ok s) entries s =
      .ok (s.1 ++ (entries.filter zipSignable).map
            (fun f => WriteAction.fileW (zipExtractPath a f.name) f.content),
          s.2 ++ (entries.filter zipSignable).map (fun f => zipRequest a f.name)) := by
  intro entries
  induction entries with
  | nil => intro s _; simp [eachZipEntry]
  | cons e rest ih =>
    intro s h
    have he := h e (List.mem_cons_self e rest)
    have hrest := fun g hg => h g (List.mem_cons_of_mem e hg)
    simp only [eachZipEntry, he, Bool.not_true, Bool.false_eq_true, if_false]
    cases hd : e.isDir with
    | true =>
      simp only [if_true]
      rw [ih s hrest]
      have : zipSignable e = false := by simp [zipSignable, hd]
      simp [List.filter_cons, this]
    | false =>
      simp only [Bool.false_eq_true, if_false]
      cases hs : hasSuffix e.name ".exe" with
      | true =>
        have hinfo : entrySignInfo a e.name = some (zipRequest a e.name) := by
          rw [entrySignInfo_zip a hz, if_pos hs]
        simp only [hinfo]
        rw [ih _ hrest]
        have hsig : zipSignable e = true := by simp [zipSignable, hd, hs]
        simp [List.filter_cons, hsig, zipRequest, List.append_assoc]
      | false =>
        have hinfo : entrySignInfo a e.name = none := by
          rw [entrySignInfo_zip a hz, if_neg (by simp [hs])]
        simp only [hinfo]
        rw [ih s hrest]
        have hsig : zipSignable e = false := by simp [zipSignable, hd, hs]
        simp [List.filter_cons, hsig]

/-- C3: on a zip archive (with path-safe entry names), the prepare phase
extracts exactly the non-directory entries whose names end in `.exe` to the
scratch directory preserving their relative path, and issues exactly one
`Microsoft400` request per such entry — none for any other entry. -/
theorem C3_zip_prepare_selects_exes (a : Archive) (entries : List ZipFile)
    (hz : a.archiveType = .zipArchive)
    (hloc : ∀ f ∈ entries, isLocal f.name = true) :
    prepareEntriesToSign a (.zipC entries) =
      .ok ((entries.filter zipSignable).map
            (fun f => WriteAction.fileW (zipExtractPath a f.name) f.content),
          (entries.filter zipSignable).map (fun f => zipRequest a f.name)) := by
  simp only [prepareEntriesToSign, hz, if_true]
  show prepareEntriesToSignZip a entries = _
  unfold prepareEntriesToSignZip
  rw [prepareZip_loop a hz entries ([], []) hloc]
  simp

/-- Witness for C3 at concrete input (scenario A): `go/bin/go.exe` is
extracted and requested with the `Microsoft400` profile; `go/doc/go.html`
is untouched. -/
theorem C3_zip_prepare_selects_exes_witness :
    winArchive.archiveType = .zipArchive ∧
    isLocal winExeEntry.name = true ∧ isLocal winHtmlEntry.name = true ∧
    prepareEntriesToSign winArchive (.zipC [winExeEntry, winHtmlEntry]) =
      .ok ([WriteAction.fileW "/tmp/sign-work-win/extract/go/bin/go.exe" [10, 11]],
        [{ originalPath := "eng/signing/tosign/go1.23.3.windows-amd64.zip",
           fullPath := "/tmp/sign-work-win/extract/go/bin/go.exe",
           authenticode := "Microsoft400", zip := false, macAppName := "" }]) :=
  ⟨rfl, by decide, by decide,
    (C3_zip_prepare_selects_exes winArchive [winExeEntry, winHtmlEntry] rfl
      (by decide)).trans (by decide)⟩

/-- The zip repack loop appends one output entry per original entry,
copying the five metadata fields and substituting disk content exactly for
the `.exe`-suffixed names. -/
theorem repackZip_loop (a : Archive) (disk : String → Option (List Nat))
    (hz : a.archiveType = .zipArchive) :
    ∀ (entries : List ZipFile) (s : List ZipOutEntry),
      (∀ f ∈ entries, isLocal f.name = true) →
      (∀ f ∈ entries, hasSuffix f.name ".exe" = true →
        (disk (zipExtractPath a f.name)).isSome = true) →
      eachZipEntry (fun f s =>
        match writeZipRepackEntry a disk f with
        | .error m => .error m
        | .ok e => .ok (s ++ [e])) entries s =
      .ok (s ++ entries.map (fun f =>
        { name := f.name, method := f.method, comment := f.comment,
          modified := f.modified, extra := f.extra,
          content := if hasSuffix f.name ".exe" = true
            then (disk (zipExtractPath a f.name)).getD [] else f.content })) := by
  intro entries
  induction entries with
  | nil => intro s _ _; simp [eachZipEntry]
  | cons e rest ih =>
    intro s hloc hdisk
    have he := hloc e (List.mem_cons_self e rest)
    have hlrest := fun g hg => hloc g (List.mem_cons_of_mem e hg)
    have hdrest := fun g hg => hdisk g (List.mem_cons_of_mem e hg)
    simp only [eachZipEntry, he, Bool.not_true, Bool.false_eq_true, if_false]
    cases hs : hasSuffix e.name ".exe" with
    | true =>
      obtain ⟨bytes, hb⟩ := Option.isSome_iff_exists.mp
        (hdisk e (List.mem_cons_self e rest) hs)
      have hw : writeZipRepackEntry a disk e =
          .ok { name := e.name, method := e.method, comment := e.comment,
                modified := e.modified, extra := e.extra, content := bytes } := by
        unfold writeZipRepackEntry
        rw [entrySignInfo_zip a hz, if_pos hs]
        simp only [zipRequest]
        rw [hb]
      simp only [hw]
      rw [ih _ hlrest hdrest]
      simp [hs, hb, List.append_assoc]
    | false =>
      have hw : writeZipRepackEntry a disk e =
          .ok { name := e.name, method := e.method, comment := e.comment,
                modified := e.modified, extra := e.extra, content := e.content } := by
        unfold writeZipRepackEntry
        rw [entrySignInfo_zip a hz, if_neg (by simp [hs])]
      simp only [hw]
      rw [ih _ hlrest hdrest]
      simp [hs, List.append_assoc]

/-- C1 (amended): on a zip archive with path-safe entry names whose signed
files exist on disk, repacking creates for every original entry, in
container order, a fresh output entry copying the original's name,
compression method, comment, modification time and extra fields exactly;
content is read from the signed file on disk for every entry *whose name
ends in `.exe`* — the condition the code re-derives at repack time — and
copied unchanged from the original for every other entry.  (A signing
request is issued during the prepare phase only for the *non-directory*
`.exe` entries, so a directory-flagged entry named `*.exe` is substituted
despite having had no request; see the counterexample.) -/
theorem C1_zip_repack_copies_and_substitutes (a : Archive)
    (disk : String → Option (List Nat)) (entries : List ZipFile)
    (hz : a.archiveType = .zipArchive)
    (hloc : ∀ f ∈ entries, isLocal f.name = true)
    (hdisk : ∀ f ∈ entries, hasSuffix f.name ".exe" = true →
      (disk (zipExtractPath a f.name)).isSome = true) :
    repackSignedEntriesZip a disk entries =
      .ok (entries.map (fun f =>
        { name := f.name, method := f.method, comment := f.comment,
          modified := f.modified, extra := f.extra,
          content := if hasSuffix f.name ".exe" = true
            then (disk (zipExtractPath a f.name)).getD [] else f.content })) := by
  unfold repackSignedEntriesZip
  rw [repackZip_loop a disk hz entries [] hloc hdisk]
  simp

/-- Counterexample to C1 as stated: a zip entry can be directory-flagged
(mode bits) while named `*.exe`.  The prepare phase skips it — no signing
request exists for it — yet repacking still substitutes its content from
the disk path instead of copying the original bytes unchanged. -/
theorem C1_counterexample :
    prepareEntriesToSign winArchive (.zipC [cexDirEntry]) = .ok ([], []) ∧
    repackSignedEntriesZip winArchive cexDisk [cexDirEntry] =
      .ok [{ name := "go/tool.exe", method := 8, comment := "", modified := 0,
             extra := [], content := [9, 9] }] ∧
    cexDirEntry.content = [1] :=
  ⟨by decide, by decide, by decide⟩

/-- Witness for C1 (amended) at concrete input (scenario A): the signed
stand-in replaces `go/bin/go.exe`, the document keeps its bytes, and all
metadata fields ride through. -/
theorem C1_zip_repack_copies_and_substitutes_witness :
    winArchive.archiveType = .zipArchive ∧
    isLocal winExeEntry.name = true ∧ isLocal winHtmlEntry.name = true ∧
    (winDisk (zipExtractPath winArchive winExeEntry.name)).isSome = true ∧
    repackSignedEntriesZip winArchive winDisk [winExeEntry, winHtmlEntry] =
      .ok [{ name := "go/bin/go.exe", method := 8, comment := "c", modified := 100,
             extra := [1, 2], content := [20, 21, 22] },
           { name := "go/doc/go.html", method := 8, comment := "", modified := 200,
             extra := [], content := [12] }] :=
  ⟨rfl, by decide, by decide, by decide,
    (C1_zip_repack_copies_and_substitutes winArchive winDisk [winExeEntry, winHtmlEntry]
      rfl (by decide) (by decide)).trans (by decide)⟩

/-- On a macOS tar.gz archive, `entrySignInfo` is decided by the two path
globs, and always carries the zip-payload marker. -/
theorem entrySignInfo_mac (a : Archive) (ht : a.archiveType = .tarGzArchive)
    (hm : a.archiveMacOS = true) (name : String) :
    entrySignInfo a name =
      if macEntryGlobs name = true then
        some { originalPath := a.path, fullPath := "", authenticode := "",
               zip := true, macAppName := "" }
      else none := by
  simp [entrySignInfo, ht, hm, macEntryGlobs]

/-- One macOS repack step: the documented-safe fields are always copied;
a regular file under the globs gets the signed bytes and their size, any
other regular file keeps its bytes, and a non-regular entry gets no body. -/
theorem writeTarRepack_mac (a : Archive) (ht : a.archiveType = .tarGzArchive)
    (hm : a.archiveMacOS = true) (signedPack : List (String × List Nat))
    (hdr : TarHeader) (content : List Nat)
    (hpack : hdr.typeflag = tarTypeReg → macEntryGlobs hdr.name = true →
      (signedPack.lookup (baseName hdr.name)).isSome = true) :
    writeTarRepackEntry a signedPack hdr content =
      .ok (if macSignable hdr = true then
        { header := { tarCopyHeader hdr with
            size := (((signedPack.lookup (baseName hdr.name)).getD []).length : Int) },
          body := some ((signedPack.lookup (baseName hdr.name)).getD []) }
      else
        { header := tarCopyHeader hdr,
          body := if hdr.typeflag = tarTypeReg then some content else none }) := by
  unfold writeTarRepackEntry
  rw [entrySignInfo_mac a ht hm]
  by_cases hreg : hdr.typeflag = tarTypeReg
  · cases hg : macEntryGlobs hdr.name with
    | true =>
      obtain ⟨bytes, hb⟩ := Option.isSome_iff_exists.mp (hpack hreg hg)
      have hsig : macSignable hdr = true := by
        simp [macSignable, hreg, hg]
      simp only [hg, if_true, Option.isSome_some, hsig, hb]
      rw [if_pos ⟨by simp, hreg⟩]
      simp
    | false =>
      have hsig : macSignable hdr = false := by
        simp [macSignable, hg]
      simp only [hg, Bool.false_eq_true, if_false, hsig, Option.isSome_none]
      rw [if_neg (by simp)]
  · have hsig : macSignable hdr = false := by
      simp [macSignable, hreg]
    simp only [hsig, Bool.false_eq_true, if_false]
    rw [if_neg (by simp [hreg])]

/-- The macOS repack loop appends one output entry per original entry. -/
theorem repackMac_loop (a : Archive) (ht : a.archiveType = .tarGzArchive)
    (hm : a.archiveMacOS = true) (signedPack : List (String × List Nat)) :
    ∀ (entries : List (TarHeader × List Nat)) (s : List TarOutEntry),
      (∀ e ∈ entries, isLocal e.1.name = true) →
      (∀ e ∈ entries, e.1.typeflag = tarTypeReg → macEntryGlobs e.1.name = true →
        (signedPack.lookup (baseName e.1.name)).isSome = true) →
      eachTarEntry (fun hdr content s =>
        match writeTarRepackEntry a signedPack hdr content with
        | .error m => .error m
        | .ok e => .ok (s ++ [e])) entries s =
      .ok (s ++ entries.map (fun e =>
        if macSignable e.1 = true then
          { header := { tarCopyHeader e.1 with
              size := (((signedPack.lookup (baseName e.1.name)).getD []).length : Int) },
            body := some ((signedPack.lookup (baseName e.1.name)).getD []) }
        else
          { header := tarCopyHeader e.1,
            body := if e.1.typeflag = tarTypeReg then some e.2 else none })) := by
  intro entries
  induction entries with
  | nil => intro s _ _; simp [eachTarEntry]
  | cons e rest ih =>
    intro s hloc hpack
    have he := hloc e (List.mem_cons_self e rest)
    have hlrest := fun g hg => hloc g (List.mem_cons_of_mem e hg)
    have hprest := fun g hg => hpack g (List.mem_cons_of_mem e hg)
    simp only [eachTarEntry, he, Bool.not_true, Bool.false_eq_true, if_false]
    simp only [writeTarRepack_mac a ht hm signedPack e.1 e.2
      (hpack e (List.mem_cons_self e rest))]
    rw [ih _ hlrest hprest]
    simp [List.append_assoc]

/-- C2: on a macOS tar.gz archive (path-safe names, every bundled basename
present in the signer-returned zip), repacking copies the documented-safe
header fields — name, link target, size, mode, uid, gid, uname, gname and
the three timestamps — of every original header into a new header; for
every regular-file entry belonging to the signed bundle (under the two
globs) the size is overridden with the actual size of the matching basename
inside the signer-returned zip and that file's bytes are streamed instead
of the original's; for non-regular-file entries only the header is written,
with no body. -/
theorem C2_mac_tar_repack_header_and_bundle (a : Archive)
    (signedPack : List (String × List Nat)) (entries : List (TarHeader × List Nat))
    (ht : a.archiveType = .tarGzArchive) (hm : a.archiveMacOS = true)
    (hloc : ∀ e ∈ entries, isLocal e.1.name = true)
    (hpack : ∀ e ∈ entries, e.1.typeflag = tarTypeReg → macEntryGlobs e.1.name = true →
      (signedPack.lookup (baseName e.1.name)).isSome = true) :
    repackSignedEntriesMac a signedPack entries =
      .ok (entries.map (fun e =>
        if macSignable e.1 = true then
          { header := { tarCopyHeader e.1 with
              size := (((signedPack.lookup (baseName e.1.name)).getD []).length : Int) },
            body := some ((signedPack.lookup (baseName e.1.name)).getD []) }
        else
          { header := tarCopyHeader e.1,
            body := if e.1.typeflag = tarTypeReg then some e.2 else none })) := by
  unfold repackSignedEntriesMac
  rw [repackMac_loop a ht hm signedPack entries [] hloc hpack]
  simp

/-- Witness for C2 at concrete input: a bundled binary gets the signed
bytes and size, a plain regular file keeps its bytes, and a symlink whose
name is outside the globs gets a header with its link target and no body. -/
theorem C2_mac_tar_repack_header_and_bundle_witness :
    macArchive.archiveType = .tarGzArchive ∧ macArchive.archiveMacOS = true ∧
    isLocal "go/bin/go" = true ∧ isLocal "go/doc/README" = true ∧
    isLocal "go/misc/link" = true ∧
    (([("go", [7, 7, 7, 7])] : List (String × List Nat)).lookup "go").isSome = true ∧
    repackSignedEntriesMac macArchive [("go", [7, 7, 7, 7])]
        [(regHeader "go/bin/go" 1, [1, 2]),
         (regHeader "go/doc/README" 2, [3]),
         ({ regHeader "go/misc/link" 0 with typeflag := 50, linkname := "go" }, [])] =
      .ok [{ header := { typeflag := 0, name := "go/bin/go", linkname := "", size := 4,
                         mode := 493, uid := 0, gid := 0, uname := "u", gname := "g",
                         modTime := 11, accessTime := 12, changeTime := 13 },
             body := some [7, 7, 7, 7] },
           { header := { typeflag := 0, name := "go/doc/README", linkname := "", size := 2,
                         mode := 493, uid := 0, gid := 0, uname := "u", gname := "g",
                         modTime := 11, accessTime := 12, changeTime := 13 },
             body := some [3] },
           { header := { typeflag := 0, name := "go/misc/link", linkname := "go", size := 0,
                         mode := 493, uid := 0, gid := 0, uname := "u", gname := "g",
                         modTime := 11, accessTime := 12, changeTime := 13 },
             body := none }] :=
  ⟨rfl, rfl, by decide, by decide, by decide, by decide,
    (C2_mac_tar_repack_header_and_bundle macArchive [("go", [7, 7, 7, 7])]
      [(regHeader "go/bin/go" 1, [1, 2]),
       (regHeader "go/doc/README" 2, [3]),
       ({ regHeader "go/misc/link" 0 with typeflag := 50, linkname := "go" }, [])]
      rfl rfl (by decide) (by decide)).trans (by decide)⟩

/-- The macOS bundle-extraction loop appends one flat-basename bundle entry
per signable regular file, provided no basename repeats. -/
theorem extractMac_loop (a : Archive) (ht : a.archiveType = .tarGzArchive)
    (hm : a.archiveMacOS = true) :
    ∀ (entries : List (TarHeader × List Nat)) (s : List (String × List Nat)),
      (∀ e ∈ entries, isLocal e.1.name = true) →
      (s.map Prod.fst
        ++ (entries.filter (fun e => macSignable e.1)).map (fun e => baseName e.1.name)).Nodup →
      eachTarEntry (fun header content s =>
        if header.typeflag ≠ tarTypeReg then .ok s
        else
          match entrySignInfo a header.name with
          | some info =>
            if !info.zip then
              .error ("unexpected file to sign directly rather than include in the zip batch: \""
                ++ header.name ++ "\"")
            else
              if s.any (fun e => e.1 = baseName header.name) then
                .error ("duplicate file name in archive: \"" ++ baseName header.name ++ "\"")
              else .ok (s ++ [(baseName header.name, content)])
          | none => .ok s) entries s =
      .ok (s ++ (entries.filter (fun e => macSignable e.1)).map
        (fun e => (baseName e.1.name, e.2))) := by
  intro entries
  induction entries with
  | nil => intro s _ _; simp [eachTarEntry]
  | cons e rest ih =>
    intro s hloc hnd
    have he := hloc e (List.mem_cons_self e rest)
    have hlrest := fun g hg => hloc g (List.mem_cons_of_mem e hg)
    simp only [eachTarEntry, he, Bool.not_true, Bool.false_eq_true, if_false]
    by_cases hreg : e.1.typeflag = tarTypeReg
    · rw [if_neg (not_not_intro hreg), entrySignInfo_mac a ht hm]
      cases hg : macEntryGlobs e.1.name with
      | false =>
        have hsig : macSignable e.1 = false := by simp [macSignable, hg]
        simp only [Bool.false_eq_true, if_false]
        rw [ih s hlrest (by simpa [List.filter_cons, hsig] using hnd)]
        simp [List.filter_cons, hsig]
      | true =>
        have hsig : macSignable e.1 = true := by simp [macSignable, hreg, hg]
        simp only [if_true, Bool.not_true, Bool.false_eq_true, if_false]
        have hnd' : (s.map Prod.fst ++ baseName e.1.name ::
            (rest.filter (fun x => macSignable x.1)).map (fun x => baseName x.1.name)).Nodup := by
          simpa [List.filter_cons, hsig] using hnd
        have hnotin : baseName e.1.name ∉ s.map Prod.fst := by
          rw [List.nodup_append] at hnd'
          exact fun hmem => (hnd'.2.2 hmem) (List.mem_cons_self _ _)
        have hany : (s.any fun x => x.1 = baseName e.1.name) = false := by
          rw [Bool.eq_false_iff]
          intro hx
          obtain ⟨x, hxs, hxb⟩ := List.any_eq_true.mp hx
          exact hnotin (of_decide_eq_true hxb ▸ List.mem_map_of_mem Prod.fst hxs)
        simp only [hany, Bool.false_eq_true, if_false]
        have hnd2 : ((s ++ [(baseName e.1.name, e.2)]).map Prod.fst ++
            (rest.filter (fun x => macSignable x.1)).map (fun x => baseName x.1.name)).Nodup := by
          simpa [List.append_assoc] using hnd'
        rw [ih _ hlrest hnd2]
        simp [List.filter_cons, hsig, List.append_assoc]
    · simp only [if_pos hreg]
      have hsig : macSignable e.1 = false := by simp [macSignable, hreg]
      rw [ih s hlrest (by simpa [List.filter_cons, hsig] using hnd)]
      simp [List.filter_cons, hsig]

/-- C4 (amended): on a macOS tar.gz archive (path-safe names, no duplicate
basenames), the prepare phase writes every regular-file entry under
`go/bin/*` and `go/pkg/tool/*/*` into one newly created zip bundle using
flat basenames only, and produces exactly one signing request referencing
that whole bundle with the hardening profile `MacDeveloperHarden`; the
request's zip-payload flag is *not* set — the tool zips the batch itself
because the signer-side `Zip=true` bundling only works on a macOS runtime —
and for every other container/platform combination (a non-macOS tar.gz) the
phase produces zero signing requests. -/
theorem C4_mac_prepare_bundles (a : Archive) (entries : List (TarHeader × List Nat)) :
    (a.archiveType = .tarGzArchive → a.archiveMacOS = true →
      (∀ e ∈ entries, isLocal e.1.name = true) →
      ((entries.filter (fun e => macSignable e.1)).map (fun e => baseName e.1.name)).Nodup →
      prepareEntriesToSign a (.tarC entries) =
        .ok ([WriteAction.zipW (macHardenPackPath a)
            ((entries.filter (fun e => macSignable e.1)).map
              (fun e => (baseName e.1.name, e.2)))],
          [macBundleRequest a])) ∧
    (a.archiveType = .tarGzArchive → a.archiveMacOS = false →
      ∀ c, prepareEntriesToSign a c = .ok ([], [])) := by
  constructor
  · intro ht hm hloc hnd
    have hne : ¬a.archiveType = .zipArchive := by rw [ht]; intro h; cases h
    simp only [prepareEntriesToSign, hne, if_false]
    rw [hm]
    simp only [if_true]
    show prepareEntriesToSignMac a entries = _
    unfold prepareEntriesToSignMac extractMacOSEntriesToZip
    rw [extractMac_loop a ht hm entries [] hloc (by simpa using hnd)]
    simp [macBundleRequest]
  · intro ht hm c
    have hne : ¬a.archiveType = .zipArchive := by rw [ht]; intro h; cases h
    simp [prepareEntriesToSign, hne, hm]

/-- Counterexample to C4 as stated: at a concrete macOS archive, the single
request the prepare phase produces for the bundle has its zip-payload flag
`false`, not `true` — the code builds the zip itself and deliberately does
not use the signer's zip-batch flag. -/
theorem C4_counterexample :
    prepareEntriesToSign macArchive (.tarC [(regHeader "go/bin/go" 2, [7, 8])]) =
      .ok ([WriteAction.zipW
            "/tmp/sign-work-mac/go1.23.3.darwin-amd64.tar.gz.ToSignBundle.zip"
            [("go", [7, 8])]],
        [{ originalPath := "eng/signing/tosign/go1.23.3.darwin-amd64.tar.gz",
           fullPath := "/tmp/sign-work-mac/go1.23.3.darwin-amd64.tar.gz.ToSignBundle.zip",
           authenticode := "MacDeveloperHarden", zip := false, macAppName := "" }]) ∧
    (macBundleRequest macArchive).zip = false :=
  ⟨by decide, by decide⟩

/-- Witness for C4 (amended) at concrete input (scenario B): `go/bin/go`
and `go/pkg/tool/amd64/compile` land in one bundle under the flat basenames
`go` and `compile`, with one `MacDeveloperHarden` request; a Linux tar.gz
archive yields zero requests. -/
theorem C4_mac_prepare_bundles_witness :
    macArchive.archiveType = .tarGzArchive ∧ macArchive.archiveMacOS = true ∧
    isLocal "go/bin/go" = true ∧ isLocal "go/pkg/tool/amd64/compile" = true ∧
    (["go", "compile"] : List String).Nodup ∧
    prepareEntriesToSign macArchive
        (.tarC [(regHeader "go/bin/go" 1, [3]), (regHeader "go/pkg/tool/amd64/compile" 1, [4])]) =
      .ok ([WriteAction.zipW
            "/tmp/sign-work-mac/go1.23.3.darwin-amd64.tar.gz.ToSignBundle.zip"
            [("go", [3]), ("compile", [4])]],
        [{ originalPath := "eng/signing/tosign/go1.23.3.darwin-amd64.tar.gz",
           fullPath := "/tmp/sign-work-mac/go1.23.3.darwin-amd64.tar.gz.ToSignBundle.zip",
           authenticode := "MacDeveloperHarden", zip := false, macAppName := "" }]) ∧
    prepareEntriesToSign
        { path := "eng/signing/tosign/go1.23.3.linux-amd64.tar.gz",
          name := "go1.23.3.linux-amd64.tar.gz", archiveType := .tarGzArchive,
          archiveMacOS := false, workDir := "/tmp/sign-work-linux" }
        (.tarC [(regHeader "go/bin/go" 1, [3])]) = .ok ([], []) :=
  ⟨rfl, rfl, by decide, by decide, by decide,
    ((C4_mac_prepare_bundles macArchive
        [(regHeader "go/bin/go" 1, [3]), (regHeader "go/pkg/tool/amd64/compile" 1, [4])]).1
      rfl rfl (by decide) (by decide)).trans (by decide),
    (C4_mac_prepare_bundles
        { path := "eng/signing/tosign/go1.23.3.linux-amd64.tar.gz",
          name := "go1.23.3.linux-amd64.tar.gz", archiveType := .tarGzArchive,
          archiveMacOS := false, workDir := "/tmp/sign-work-linux" } []).2 rfl rfl
      (.tarC [(regHeader "go/bin/go" 1, [3])])⟩

/-- A key found in the first map is found in the concatenation. -/
theorem lookup_append_some {α β : Type} [BEq α] {k : α} {v : β} :
    ∀ (l1 l2 : List (α × β)), l1.lookup k = some v → (l1 ++ l2).lookup k = some v := by
  intro l1 l2 h
  induction l1 with
  | nil => simp [List.lookup] at h
  | cons p rest ih =>
    simp only [List.lookup] at h ⊢
    cases hpk : k == p.1 with
    | true => rw [hpk] at h; simpa [hpk] using h
    | false =>
      rw [hpk] at h
      simpa [hpk] using ih h

/-- A key absent from the first map defers to the second. -/
theorem lookup_append_none {α β : Type} [BEq α] {k : α} :
    ∀ (l1 l2 : List (α × β)), l1.lookup k = none → (l1 ++ l2).lookup k = l2.lookup k := by
  intro l1 l2 h
  induction l1 with
  | nil => simp
  | cons p rest ih =>
    simp only [List.lookup] at h ⊢
    cases hpk : k == p.1 with
    | true => rw [hpk] at h; simp at h
    | false =>
      rw [hpk] at h
      simpa [hpk] using ih h

/-- A key outside a map's key list looks up to nothing. -/
theorem lookup_eq_none_of_not_mem {α β : Type} [BEq α] [LawfulBEq α] {k : α} :
    ∀ (l : List (α × β)), k ∉ l.map Prod.fst → l.lookup k = none := by
  intro l h
  induction l with
  | nil => rfl
  | cons p rest ih =>
    simp only [List.map_cons, List.mem_cons] at h
    push_neg at h
    simp only [List.lookup]
    cases hpk : k == p.1 with
    | true => exact absurd (eq_of_beq hpk) h.1
    | false => simpa [hpk] using ih h.2

/-- Once the `seen` map holds the lowercased base filename of a later
non-sidecar file `g`, discovery reaches `g` and reports the duplicate
against the stored original, provided the files in between process
cleanly. -/
theorem findArchivesLoop_hit (w : String → String) (g f1 : String)
    (hg : hasSuffix g ".sha256" = false) :
    ∀ (mid post : List String) (seen : List (String × String)) (acc : List Archive),
      (∀ f ∈ mid, hasSuffix f ".sha256" = false → ∃ a, newArchive f (w f) = .ok a) →
      (seen.map Prod.fst ++ (mid.filter (fun f => !hasSuffix f ".sha256")).map
        (fun f => toLowerStr (baseName f))).Nodup →
      seen.lookup (toLowerStr (baseName g)) = some f1 →
      findArchivesLoop w seen acc (mid ++ g :: post) =
        .error ("duplicate archive \"" ++ g ++ "\", already found \"" ++ f1
          ++ "\" (comparing lowercase filename)") := by
  intro mid
  induction mid with
  | nil =>
    intro post seen acc _ _ hk
    simp only [List.nil_append, findArchivesLoop, hg, Bool.false_eq_true, if_false, hk]
  | cons f rest ih =>
    intro post seen acc hok hnd hk
    simp only [List.cons_append, findArchivesLoop]
    cases hf : hasSuffix f ".sha256" with
    | true =>
      simp only [if_true]
      exact ih post seen acc (fun x hx => hok x (List.mem_cons_of_mem f hx))
        (by simpa [List.filter_cons, hf] using hnd) hk
    | false =>
      simp only [Bool.false_eq_true, if_false]
      have hnd' : (seen.map Prod.fst ++ toLowerStr (baseName f) ::
          (rest.filter (fun x => !hasSuffix x ".sha256")).map
            (fun x => toLowerStr (baseName x))).Nodup := by
        simpa [List.filter_cons, hf] using hnd
      have hnotin : toLowerStr (baseName f) ∉ seen.map Prod.fst := by
        rw [List.nodup_append] at hnd'
        exact fun hmem => hnd'.2.2 hmem (List.mem_cons_self _ _)
      obtain ⟨a, ha⟩ := hok f (List.mem_cons_self f rest) hf
      simp only [lookup_eq_none_of_not_mem seen hnotin, ha]
      apply ih post _ _ (fun x hx => hok x (List.mem_cons_of_mem f hx))
      · simpa [List.map_append, List.append_assoc] using hnd'
      · exact lookup_append_some seen _ hk

/-- Discovery over a clean prefix, a first occurrence `f1`, more clean
files, then a second non-sidecar file `g` with the same lowercased base
filename reports the duplicate against `f1`. -/
theorem findArchivesLoop_pre (w : String → String) (f1 g : String)
    (hf1 : hasSuffix f1 ".sha256" = false) (hg : hasSuffix g ".sha256" = false)
    (heq : toLowerStr (baseName g) = toLowerStr (baseName f1)) :
    ∀ (pre mid post : List String) (seen : List (String × String)) (acc : List Archive),
      (∀ f ∈ pre ++ f1 :: mid, hasSuffix f ".sha256" = false →
        ∃ a, newArchive f (w f) = .ok a) →
      (seen.map Prod.fst ++ ((pre ++ f1 :: mid).filter (fun f => !hasSuffix f ".sha256")).map
        (fun f => toLowerStr (baseName f))).Nodup →
      seen.lookup (toLowerStr (baseName g)) = none →
      findArchivesLoop w seen acc (pre ++ f1 :: mid ++ g :: post) =
        .error ("duplicate archive \"" ++ g ++ "\", already found \"" ++ f1
          ++ "\" (comparing lowercase filename)") := by
  intro pre
  induction pre with
  | nil =>
    intro mid post seen acc hok hnd hk
    simp only [List.nil_append] at hok hnd ⊢
    simp only [findArchivesLoop, hf1, Bool.false_eq_true, if_false]
    have hk1 : seen.lookup (toLowerStr (baseName f1)) = none := heq ▸ hk
    obtain ⟨a, ha⟩ := hok f1 (List.mem_cons_self f1 mid) hf1
    simp only [hk1, ha]
    apply findArchivesLoop_hit w g f1 hg mid post _ _
      (fun x hx => hok x (List.mem_cons_of_mem f1 hx))
    · have : (seen.map Prod.fst ++ toLowerStr (baseName f1) ::
          (mid.filter (fun x => !hasSuffix x ".sha256")).map
            (fun x => toLowerStr (baseName x))).Nodup := by
        simpa [List.filter_cons, hf1] using hnd
      simpa [List.map_append, List.append_assoc] using this
    · rw [heq, lookup_append_none seen _ hk1]
      simp [List.lookup]
  | cons p rest ih =>
    intro mid post seen acc hok hnd hk
    simp only [List.cons_append, findArchivesLoop]
    cases hp : hasSuffix p ".sha256" with
    | true =>
      simp only [if_true]
      exact ih mid post seen acc (fun x hx => hok x (List.mem_cons_of_mem p hx))
        (by simpa [List.filter_cons, hp] using hnd) hk
    | false =>
      simp only [Bool.false_eq_true, if_false]
      have hnd' : (seen.map Prod.fst ++ toLowerStr (baseName p) ::
          ((rest ++ f1 :: mid).filter (fun x => !hasSuffix x ".sha256")).map
            (fun x => toLowerStr (baseName x))).Nodup := by
        simpa [List.filter_cons, hp] using hnd
      have hnotin : toLowerStr (baseName p) ∉ seen.map Prod.fst := by
        rw [List.nodup_append] at hnd'
        exact fun hmem => hnd'.2.2 hmem (List.mem_cons_self _ _)
      have hpf1 : toLowerStr (baseName p) ≠ toLowerStr (baseName f1) := by
        have htail : (toLowerStr (baseName p) ::
            ((rest ++ f1 :: mid).filter (fun x => !hasSuffix x ".sha256")).map
              (fun x => toLowerStr (baseName x))).Nodup :=
          (List.nodup_append.mp hnd').2.1
        have hmem : toLowerStr (baseName f1) ∈
            ((rest ++ f1 :: mid).filter (fun x => !hasSuffix x ".sha256")).map
              (fun x => toLowerStr (baseName x)) := by
          refine List.mem_map_of_mem _ (List.mem_filter.mpr ⟨?_, by simp [hf1]⟩)
          exact List.mem_append_right rest (List.mem_cons_self f1 mid)
        intro hcontr
        exact (List.nodup_cons.mp htail).1 (hcontr ▸ hmem)
      obtain ⟨a, ha⟩ := hok p (List.mem_cons_self p _) hp
      simp only [lookup_eq_none_of_not_mem seen hnotin, ha]
      apply ih mid post _ _ (fun x hx => hok x (List.mem_cons_of_mem p hx))
      · simpa [List.map_append, List.append_assoc] using hnd'
      · rw [lookup_append_none seen _ hk]
        have : (toLowerStr (baseName g) == toLowerStr (baseName p)) = false := by
          rw [beq_eq_false_iff_ne]
          rw [heq]
          exact fun hcontr => hpf1 hcontr.symm
        simp [List.lookup, this]

/-- If the bundle under construction and the signable entries ahead carry a
repeated basename, the macOS bundle extraction fails with the
duplicate-name error. -/
theorem extractMac_dup (a : Archive) (ht : a.archiveType = .tarGzArchive)
    (hm : a.archiveMacOS = true) :
    ∀ (entries : List (TarHeader × List Nat)) (s : List (String × List Nat)),
      (∀ e ∈ entries, isLocal e.1.name = true) →
      (s.map Prod.fst).Nodup →
      ¬ (s.map Prod.fst ++ (entries.filter (fun e => macSignable e.1)).map
        (fun e => baseName e.1.name)).Nodup →
      ∃ b, eachTarEntry (fun header content s =>
        if header.typeflag ≠ tarTypeReg then .ok s
        else
          match entrySignInfo a header.name with
          | some info =>
            if !info.zip then
              .error ("unexpected file to sign directly rather than include in the zip batch: \""
                ++ header.name ++ "\"")
            else
              if s.any (fun e => e.1 = baseName header.name) then
                .error ("duplicate file name in archive: \"" ++ baseName header.name ++ "\"")
              else .ok (s ++ [(baseName header.name, content)])
          | none => .ok s) entries s =
        .error ("duplicate file name in archive: \"" ++ b ++ "\"") := by
  intro entries
  induction entries with
  | nil =>
    intro s _ hnds hdup
    exact absurd (by simpa using hnds) (by simpa using hdup)
  | cons e rest ih =>
    intro s hloc hnds hdup
    have he := hloc e (List.mem_cons_self e rest)
    have hlrest := fun g hg => hloc g (List.mem_cons_of_mem e hg)
    simp only [eachTarEntry, he, Bool.not_true, Bool.false_eq_true, if_false]
    by_cases hreg : e.1.typeflag = tarTypeReg
    · rw [if_neg (not_not_intro hreg), entrySignInfo_mac a ht hm]
      cases hg : macEntryGlobs e.1.name with
      | false =>
        have hsig : macSignable e.1 = false := by simp [macSignable, hg]
        simp only [Bool.false_eq_true, if_false]
        exact ih s hlrest hnds (by
          intro hcontr
          exact hdup (by simpa [List.filter_cons, hsig] using hcontr))
      | true =>
        have hsig : macSignable e.1 = true := by simp [macSignable, hreg, hg]
        simp only [if_true, Bool.not_true, Bool.false_eq_true, if_false]
        by_cases hmem : baseName e.1.name ∈ s.map Prod.fst
        · have hany : (s.any fun x => x.1 = baseName e.1.name) = true := by
            obtain ⟨x, hxs, hx1⟩ := List.mem_map.mp hmem
            exact List.any_eq_true.mpr ⟨x, hxs, decide_eq_true hx1⟩
          refine ⟨baseName e.1.name, ?_⟩
          simp only [hany, if_true]
        · have hany : (s.any fun x => x.1 = baseName e.1.name) = false := by
            rw [Bool.eq_false_iff]
            intro hx
            obtain ⟨x, hxs, hxb⟩ := List.any_eq_true.mp hx
            exact hmem (of_decide_eq_true hxb ▸ List.mem_map_of_mem Prod.fst hxs)
          simp only [hany, Bool.false_eq_true, if_false]
          apply ih _ hlrest
          · simpa [List.map_append] using
              List.Nodup.append hnds (List.nodup_singleton _)
                (by simpa [List.disjoint_singleton] using hmem)
          · intro hcontr
            apply hdup
            have : ((s ++ [(baseName e.1.name, e.2)]).map Prod.fst ++
                (rest.filter (fun x => macSignable x.1)).map
                  (fun x => baseName x.1.name)).Nodup := hcontr
            simpa [List.filter_cons, hsig, List.map_append, List.append_assoc] using this
    · simp only [if_pos hreg]
      have hsig : macSignable e.1 = false := by simp [macSignable, hreg]
      exact ih s hlrest hnds (by
        intro hcontr
        exact hdup (by simpa [List.filter_cons, hsig] using hcontr))

/-- C6: (discovery) when two discovered non-sidecar files have equal
lowercase base filenames and everything before the second occurrence
classifies cleanly, discovery fails with the duplicate-archive error naming
both paths, and the phase-1 pipeline therefore issues no signing request;
(bundling) when the signable regular files of a macOS tar.gz carry a
repeated basename, the prepare phase fails with the duplicate-file-name
error, so its request list is never produced and no signer call is made. -/
theorem C6_duplicate_detection (w : String → String) (glob : String)
    (contents : String → ArchiveContents) (pre mid post : List String) (f1 g : String)
    (a : Archive) (entries : List (TarHeader × List Nat)) :
    (hasSuffix f1 ".sha256" = false → hasSuffix g ".sha256" = false →
      toLowerStr (baseName g) = toLowerStr (baseName f1) →
      (∀ f ∈ pre ++ f1 :: mid, hasSuffix f ".sha256" = false →
        ∃ a2, newArchive f (w f) = .ok a2) →
      (((pre ++ f1 :: mid).filter (fun f => !hasSuffix f ".sha256")).map
        (fun f => toLowerStr (baseName f))).Nodup →
      findArchives w glob (pre ++ f1 :: mid ++ g :: post) =
        .error ("duplicate archive \"" ++ g ++ "\", already found \"" ++ f1
          ++ "\" (comparing lowercase filename)") ∧
      phase1Requests w glob (pre ++ f1 :: mid ++ g :: post) contents =
        .error ("duplicate archive \"" ++ g ++ "\", already found \"" ++ f1
          ++ "\" (comparing lowercase filename)")) ∧
    (a.archiveType = .tarGzArchive → a.archiveMacOS = true →
      (∀ e ∈ entries, isLocal e.1.name = true) →
      ¬ ((entries.filter (fun e => macSignable e.1)).map
        (fun e => baseName e.1.name)).Nodup →
      ∃ b, prepareEntriesToSign a (.tarC entries) =
          .error ("failed to extract file from \"" ++ a.path ++ "\": "
            ++ ("duplicate file name in archive: \"" ++ b ++ "\"")) ∧
        prepareRequests a (.tarC entries) =
          .error ("failed to extract file from \"" ++ a.path ++ "\": "
            ++ ("duplicate file name in archive: \"" ++ b ++ "\""))) := by
  constructor
  · intro hf1 hg heq hok hnd
    have hloop := findArchivesLoop_pre w f1 g hf1 hg heq pre mid post [] [] hok
      (by simpa using hnd) rfl
    have hfind : findArchives w glob (pre ++ f1 :: mid ++ g :: post) =
        .error ("duplicate archive \"" ++ g ++ "\", already found \"" ++ f1
          ++ "\" (comparing lowercase filename)") := by
      unfold findArchives
      rw [hloop]
    refine ⟨hfind, ?_⟩
    unfold phase1Requests
    rw [hfind]
  · intro ht hm hloc hdup
    have hne : ¬a.archiveType = .zipArchive := by rw [ht]; intro h; cases h
    obtain ⟨b, hb⟩ := extractMac_dup a ht hm entries [] hloc (by simp)
      (by simpa using hdup)
    have hpe : prepareEntriesToSign a (.tarC entries) =
        .error ("failed to extract file from \"" ++ a.path ++ "\": "
          ++ ("duplicate file name in archive: \"" ++ b ++ "\"")) := by
      simp only [prepareEntriesToSign, hne, if_false]
      rw [hm]
      simp only [if_true]
      show prepareEntriesToSignMac a entries = _
      unfold prepareEntriesToSignMac extractMacOSEntriesToZip
      rw [hb]
    refine ⟨b, hpe, ?_⟩
    unfold prepareRequests
    rw [hpe]

set_option maxRecDepth 8000 in
/-- Witness for C6 at concrete input: two Linux archives whose basenames
differ only by case fail discovery with the duplicate-archive error (and
the phase-1 manifest is never built); a macOS tar.gz whose `go/bin/go` and
`go/pkg/tool/amd64/go` share the basename `go` fails bundling. -/
theorem C6_duplicate_detection_witness :
    hasSuffix "eng/signing/tosign/go1.23.3.linux-amd64.tar.gz" ".sha256" = false ∧
    hasSuffix "eng/signing/tosign/go1.23.3.Linux-AMD64.tar.gz" ".sha256" = false ∧
    toLowerStr (baseName "eng/signing/tosign/go1.23.3.Linux-AMD64.tar.gz") =
      toLowerStr (baseName "eng/signing/tosign/go1.23.3.linux-amd64.tar.gz") ∧
    findArchives (fun _ => "/w") "eng/signing/tosign/*"
        ["eng/signing/tosign/go1.23.3.linux-amd64.tar.gz",
         "eng/signing/tosign/go1.23.3.Linux-AMD64.tar.gz"] =
      .error "duplicate archive \"eng/signing/tosign/go1.23.3.Linux-AMD64.tar.gz\", already found \"eng/signing/tosign/go1.23.3.linux-amd64.tar.gz\" (comparing lowercase filename)" ∧
    phase1Requests (fun _ => "/w") "eng/signing/tosign/*"
        ["eng/signing/tosign/go1.23.3.linux-amd64.tar.gz",
         "eng/signing/tosign/go1.23.3.Linux-AMD64.tar.gz"] dryRunContents =
      .error "duplicate archive \"eng/signing/tosign/go1.23.3.Linux-AMD64.tar.gz\", already found \"eng/signing/tosign/go1.23.3.linux-amd64.tar.gz\" (comparing lowercase filename)" ∧
    (∃ b, prepareEntriesToSign macArchive
          (.tarC [(regHeader "go/bin/go" 1, [1]), (regHeader "go/pkg/tool/amd64/go" 1, [2])]) =
        .error ("failed to extract file from \"" ++ macArchive.path ++ "\": "
          ++ ("duplicate file name in archive: \"" ++ b ++ "\"")) ∧
      prepareRequests macArchive
          (.tarC [(regHeader "go/bin/go" 1, [1]), (regHeader "go/pkg/tool/amd64/go" 1, [2])]) =
        .error ("failed to extract file from \"" ++ macArchive.path ++ "\": "
          ++ ("duplicate file name in archive: \"" ++ b ++ "\""))) := by
  have h := C6_duplicate_detection (fun _ => "/w") "eng/signing/tosign/*" dryRunContents
    [] [] [] "eng/signing/tosign/go1.23.3.linux-amd64.tar.gz"
    "eng/signing/tosign/go1.23.3.Linux-AMD64.tar.gz" macArchive
    [(regHeader "go/bin/go" 1, [1]), (regHeader "go/pkg/tool/amd64/go" 1, [2])]
  have h1 := h.1 (by decide) (by decide) (by decide)
    (by
      intro f hf _
      simp only [List.nil_append, List.mem_singleton] at hf
      subst hf
      exact ⟨{ path := "eng/signing/tosign/go1.23.3.linux-amd64.tar.gz",
               name := "go1.23.3.linux-amd64.tar.gz", archiveType := .tarGzArchive,
               archiveMacOS := false, workDir := "/w" }, by decide⟩)
    (by decide)
  have h2 := h.2 rfl rfl (by decide) (by decide)
  exact ⟨by decide, by decide, by decide, h1.1.trans (by decide), h1.2.trans (by decide), h2⟩

/-- Classification does not depend on the scratch directory. -/
theorem newArchive_workdir (p wd1 wd2 : String) :
    (newArchive p wd1).map archiveProj = (newArchive p wd2).map archiveProj := by
  unfold newArchive
  by_cases h1 : matchOrPanic "go*.zip" (baseName p) = true
  · simp [h1, Except.map, archiveProj]
  · by_cases h2 : matchOrPanic "go*.tar.gz" (baseName p) = true
    · simp [h1, h2, Except.map, archiveProj]
    · simp [h1, h2, Except.map]

/-- Discovery with two scratch-directory assignments succeeds and fails
identically, and produces archives equal up to their scratch directories. -/
theorem findArchivesLoop_workdirs (w1 w2 : String → String) :
    ∀ (files : List String) (seen : List (String × String)) (acc1 acc2 : List Archive),
      acc1.map archiveProj = acc2.map archiveProj →
      (findArchivesLoop w1 seen acc1 files).map (List.map archiveProj) =
      (findArchivesLoop w2 seen acc2 files).map (List.map archiveProj) := by
  intro files
  induction files with
  | nil =>
    intro seen acc1 acc2 hacc
    simpa [findArchivesLoop, Except.map] using hacc
  | cons f rest ih =>
    intro seen acc1 acc2 hacc
    simp only [findArchivesLoop]
    cases hf : hasSuffix f ".sha256" with
    | true =>
      simp only [if_true]
      exact ih seen acc1 acc2 hacc
    | false =>
      simp only [Bool.false_eq_true, if_false]
      cases hl : List.lookup (toLowerStr (baseName f)) seen with
      | some ex => simp [Except.map]
      | none =>
        have hna := newArchive_workdir f (w1 f) (w2 f)
        cases h1 : newArchive f (w1 f) with
        | error e1 =>
          cases h2 : newArchive f (w2 f) with
          | error e2 =>
            have he : e1 = e2 := by simpa [h1, h2, Except.map] using hna
            simp [Except.map, he]
          | ok a2 =>
            rw [h1, h2] at hna
            simp [Except.map] at hna
        | ok a1 =>
          cases h2 : newArchive f (w2 f) with
          | error e2 =>
            rw [h1, h2] at hna
            simp [Except.map] at hna
          | ok a2 =>
            rw [h1, h2] at hna
            have hpa : archiveProj a1 = archiveProj a2 := by
              simpa [Except.map] using hna
            exact ih _ _ _ (by simp [hacc, hpa])

/-- The zip prepare loops of two archives equal up to their scratch
directories succeed and fail identically, producing stripped-equal request
lists. -/
theorem prepZip_lockstep (a1 a2 : Archive) (hp : a1.path = a2.path)
    (hz1 : a1.archiveType = .zipArchive) (hz2 : a2.archiveType = .zipArchive) :
    ∀ (entries : List ZipFile) (s1 s2 : List WriteAction × List FileToSign),
      s1.2.map stripW = s2.2.map stripW →
      (eachZipEntry (fun f s =>
        if f.isDir then .ok s
        else
          match entrySignInfo a1 f.name with
          | some info => .ok (s.1 ++ [WriteAction.fileW info.fullPath f.content], s.2 ++ [info])
          | none => .ok s) entries s1).map (fun r => r.2.map stripW) =
      (eachZipEntry (fun f s =>
        if f.isDir then .ok s
        else
          match entrySignInfo a2 f.name with
          | some info => .ok (s.1 ++ [WriteAction.fileW info.fullPath f.content], s.2 ++ [info])
          | none => .ok s) entries s2).map (fun r => r.2.map stripW) := by
  intro entries
  induction entries with
  | nil =>
    intro s1 s2 hs
    simpa [eachZipEntry, Except.map] using hs
  | cons e rest ih =>
    intro s1 s2 hs
    simp only [eachZipEntry]
    cases hl : isLocal e.name with
    | false => simp [Except.map]
    | true =>
      simp only [Bool.not_true, Bool.false_eq_true, if_false]
      cases hd : e.isDir with
      | true =>
        simp only [if_true]
        exact ih s1 s2 hs
      | false =>
        simp only [Bool.false_eq_true, if_false]
        cases hsfx : hasSuffix e.name ".exe" with
        | true =>
          have h1 : entrySignInfo a1 e.name = some (zipRequest a1 e.name) := by
            rw [entrySignInfo_zip a1 hz1, if_pos hsfx]
          have h2 : entrySignInfo a2 e.name = some (zipRequest a2 e.name) := by
            rw [entrySignInfo_zip a2 hz2, if_pos hsfx]
          simp only [h1, h2]
          exact ih _ _ (by simp [hs, stripW, zipRequest, hp])
        | false =>
          have h1 : entrySignInfo a1 e.name = none := by
            rw [entrySignInfo_zip a1 hz1, if_neg (by simp [hsfx])]
          have h2 : entrySignInfo a2 e.name = none := by
            rw [entrySignInfo_zip a2 hz2, if_neg (by simp [hsfx])]
          simp only [h1, h2]
          exact ih s1 s2 hs

/-- macOS bundle extraction depends only on the archive's classification
fields, not its scratch directory. -/
theorem extract_workdirs (a1 a2 : Archive)
    (ht1 : a1.archiveType = .tarGzArchive) (ht2 : a2.archiveType = .tarGzArchive)
    (hm1 : a1.archiveMacOS = true) (hm2 : a2.archiveMacOS = true)
    (entries : List (TarHeader × List Nat)) :
    extractMacOSEntriesToZip a1 entries = extractMacOSEntriesToZip a2 entries := by
  unfold extractMacOSEntriesToZip
  congr 1
  funext header content s
  rw [entrySignInfo_mac a1 ht1 hm1, entrySignInfo_mac a2 ht2 hm2]
  by_cases hg : macEntryGlobs header.name = true <;> simp [hg]

/-- One archive's phase-1 preparation, run with two scratch directories,
succeeds and fails identically and yields stripped-equal requests. -/
theorem prepare_workdirs (a1 a2 : Archive)
    (hproj : archiveProj a1 = archiveProj a2) (c : ArchiveContents) :
    (prepareEntriesToSign a1 c).map (fun r => r.2.map stripW) =
    (prepareEntriesToSign a2 c).map (fun r => r.2.map stripW) := by
  have hp : a1.path = a2.path := congrArg Prod.fst hproj
  have ht : a1.archiveType = a2.archiveType := by
    have := congrArg (fun x => x.2.2.1) hproj
    simpa using this
  have hm : a1.archiveMacOS = a2.archiveMacOS := by
    have := congrArg (fun x => x.2.2.2) hproj
    simpa using this
  unfold prepareEntriesToSign
  by_cases hz : a1.archiveType = .zipArchive
  · have hz2 : a2.archiveType = .zipArchive := ht ▸ hz
    simp only [hz, hz2, if_true]
    cases c with
    | tarC _ => simp [Except.map, hp]
    | zipC entries =>
      show (prepareEntriesToSignZip a1 entries).map (fun r => r.2.map stripW) =
        (prepareEntriesToSignZip a2 entries).map (fun r => r.2.map stripW)
      unfold prepareEntriesToSignZip
      have hlck := prepZip_lockstep a1 a2 hp hz hz2 entries ([], []) ([], []) rfl
      cases hr1 : eachZipEntry (fun f s =>
          if f.isDir then .ok s
          else
            match entrySignInfo a1 f.name with
            | some info => .ok (s.1 ++ [WriteAction.fileW info.fullPath f.content], s.2 ++ [info])
            | none => .ok s) entries (([], []) : List WriteAction × List FileToSign) with
      | error e1 =>
        cases hr2 : eachZipEntry (fun f s =>
            if f.isDir then .ok s
            else
              match entrySignInfo a2 f.name with
              | some info => .ok (s.1 ++ [WriteAction.fileW info.fullPath f.content], s.2 ++ [info])
              | none => .ok s) entries (([], []) : List WriteAction × List FileToSign) with
        | error e2 =>
          rw [hr1, hr2] at hlck
          have he : e1 = e2 := by simpa [Except.map] using hlck
          simp [Except.map, he, hp]
        | ok r2 =>
          rw [hr1, hr2] at hlck
          simp [Except.map] at hlck
      | ok r1 =>
        cases hr2 : eachZipEntry (fun f s =>
            if f.isDir then .ok s
            else
              match entrySignInfo a2 f.name with
              | some info => .ok (s.1 ++ [WriteAction.fileW info.fullPath f.content], s.2 ++ [info])
              | none => .ok s) entries (([], []) : List WriteAction × List FileToSign) with
        | error e2 =>
          rw [hr1, hr2] at hlck
          simp [Except.map] at hlck
        | ok r2 =>
          rw [hr1, hr2] at hlck
          have hreq : r1.2.map stripW = r2.2.map stripW := by
            simpa [Except.map] using hlck
          simp [Except.map, hreq]
  · have hz2 : ¬a2.archiveType = .zipArchive := ht ▸ hz
    simp only [hz, hz2, if_false]
    cases hmac : a1.archiveMacOS with
    | false =>
      rw [hm] at hmac
      rw [hmac]
      simp
    | true =>
      have hmac2 : a2.archiveMacOS = true := hm ▸ hmac
      rw [hmac2]
      simp only [eq_self_iff_true, if_true]
      cases c with
      | zipC _ => simp [Except.map, hp]
      | tarC entries =>
        show (prepareEntriesToSignMac a1 entries).map (fun r => r.2.map stripW) =
          (prepareEntriesToSignMac a2 entries).map (fun r => r.2.map stripW)
        have ht1 : a1.archiveType = .tarGzArchive := by
          cases h : a1.archiveType with
          | zipArchive => exact absurd h hz
          | tarGzArchive => rfl
        have ht2 : a2.archiveType = .tarGzArchive := ht ▸ ht1
        unfold prepareEntriesToSignMac
        rw [extract_workdirs a1 a2 ht1 ht2 hmac hmac2 entries]
        cases hex : extractMacOSEntriesToZip a2 entries with
        | error e => simp [Except.map, hp]
        | ok bundle => simp [Except.map, stripW, hp]

/-- Collecting phase-1 requests across archives equal up to their scratch
directories succeeds and fails identically, with stripped-equal manifests. -/
theorem flatMap_workdirs (contents : String → ArchiveContents) :
    ∀ (l1 l2 : List Archive), l1.map archiveProj = l2.map archiveProj →
      (flatMapSlice l1 (fun a => prepareRequests a (contents a.path))).map (List.map stripW) =
      (flatMapSlice l2 (fun a => prepareRequests a (contents a.path))).map (List.map stripW) := by
  intro l1
  induction l1 with
  | nil =>
    intro l2 h
    cases l2 with
    | nil => rfl
    | cons b bs => simp at h
  | cons a1 rest1 ih =>
    intro l2 h
    cases l2 with
    | nil => simp at h
    | cons a2 rest2 =>
      simp only [List.map_cons, List.cons.injEq] at h
      obtain ⟨hpa, hrest⟩ := h
      have hp : a1.path = a2.path := congrArg Prod.fst hpa
      have hprep := prepare_workdirs a1 a2 hpa (contents a1.path)
      rw [hp] at hprep
      simp only [flatMapSlice]
      unfold prepareRequests
      rw [hp]
      cases h1 : prepareEntriesToSign a1 (contents a2.path) with
      | error e1 =>
        cases h2 : prepareEntriesToSign a2 (contents a2.path) with
        | error e2 =>
          rw [h1, h2] at hprep
          have he : e1 = e2 := by simpa [Except.map] using hprep
          simp [Except.map, he]
        | ok r2 =>
          rw [h1, h2] at hprep
          simp [Except.map] at hprep
      | ok r1 =>
        cases h2 : prepareEntriesToSign a2 (contents a2.path) with
        | error e2 =>
          rw [h1, h2] at hprep
          simp [Except.map] at hprep
        | ok r2 =>
          rw [h1, h2] at hprep
          have hreq : r1.2.map stripW = r2.2.map stripW := by
            simpa [Except.map] using hprep
          have hrec := ih rest2 hrest
          cases hr1 : flatMapSlice rest1 (fun a => prepareRequests a (contents a.path)) with
          | error e1 =>
            cases hr2 : flatMapSlice rest2 (fun a => prepareRequests a (contents a.path)) with
            | error e2 =>
              rw [hr1, hr2] at hrec
              have he : e1 = e2 := by simpa [Except.map] using hrec
              unfold prepareRequests at hr1 hr2
              simp [Except.map, hr1, hr2, he]
            | ok m2 =>
              rw [hr1, hr2] at hrec
              simp [Except.map] at hrec
          | ok m1 =>
            cases hr2 : flatMapSlice rest2 (fun a => prepareRequests a (contents a.path)) with
            | error e2 =>
              rw [hr1, hr2] at hrec
              simp [Except.map] at hrec
            | ok m2 =>
              rw [hr1, hr2] at hrec
              have hm : m1.map stripW = m2.map stripW := by
                simpa [Except.map] using hrec
              unfold prepareRequests at hr1 hr2
              simp [Except.map, hr1, hr2, List.map_append, hreq, hm]

/-- Discovery's result does not depend on the scratch directories except
through each archive's `workDir` field. -/
theorem findArchives_workdirs (w1 w2 : String → String) (glob : String)
    (files : List String) :
    (findArchives w1 glob files).map (List.map archiveProj) =
    (findArchives w2 glob files).map (List.map archiveProj) := by
  unfold findArchives
  have hloop := findArchivesLoop_workdirs w1 w2 files [] [] [] rfl
  cases h1 : findArchivesLoop w1 [] [] files with
  | error e1 =>
    cases h2 : findArchivesLoop w2 [] [] files with
    | error e2 =>
      rw [h1, h2] at hloop
      have he : e1 = e2 := by simpa [Except.map] using hloop
      simp [Except.map, he]
    | ok l2 =>
      rw [h1, h2] at hloop
      simp [Except.map] at hloop
  | ok l1 =>
    cases h2 : findArchivesLoop w2 [] [] files with
    | error e2 =>
      rw [h1, h2] at hloop
      simp [Except.map] at hloop
    | ok l2 =>
      rw [h1, h2] at hloop
      have hproj : l1.map archiveProj = l2.map archiveProj := by
        simpa [Except.map] using hloop
      have hlen : l1.length = l2.length := by
        simpa using congrArg List.length hproj
      by_cases hnil : l1.length = 0
      · simp [Except.map, hnil, hlen ▸ hnil]
      · simp [Except.map, hnil, hlen ▸ hnil, hproj]

/-- C7 (amended): two executions of the dry-run pipeline on the same
discovered files and archive contents, differing only in the random
scratch-directory names `os.MkdirTemp` hands each archive, succeed and fail
identically and produce request manifests with the same length, order,
originating archives, signing profiles, zip-payload flags and app names;
the entries differ at most in the scratch-directory component of their
on-disk `Include` paths (so with equal scratch directories the manifests
are identical verbatim). -/
theorem C7_dry_run_manifest_stable (w1 w2 : String → String) (glob : String)
    (files : List String) (contents : String → ArchiveContents) :
    (phase1Requests w1 glob files contents).map (List.map stripW) =
    (phase1Requests w2 glob files contents).map (List.map stripW) := by
  unfold phase1Requests
  have hfa := findArchives_workdirs w1 w2 glob files
  cases h1 : findArchives w1 glob files with
  | error e1 =>
    cases h2 : findArchives w2 glob files with
    | error e2 =>
      rw [h1, h2] at hfa
      have he : e1 = e2 := by simpa [Except.map] using hfa
      simp [Except.map, he]
    | ok l2 =>
      rw [h1, h2] at hfa
      simp [Except.map] at hfa
  | ok l1 =>
    cases h2 : findArchives w2 glob files with
    | error e2 =>
      rw [h1, h2] at hfa
      simp [Except.map] at hfa
    | ok l2 =>
      rw [h1, h2] at hfa
      have hproj : l1.map archiveProj = l2.map archiveProj := by
        simpa [Except.map] using hfa
      simpa [Except.map] using flatMap_workdirs contents l1 l2 hproj

/-- Counterexample to C7 as stated: the same input run twice in dry-run
mode, with the different randomly-suffixed scratch directories `os.MkdirTemp`
returns on each run, produces request manifests that are *not* identical —
the `Include` paths embed the per-run scratch directory. -/
theorem C7_counterexample :
    (phase1Requests runAWorkDirs "eng/signing/tosign/*" dryRunFiles dryRunContents).toOption.isSome
      = true ∧
    phase1Requests runAWorkDirs "eng/signing/tosign/*" dryRunFiles dryRunContents ≠
      phase1Requests runBWorkDirs "eng/signing/tosign/*" dryRunFiles dryRunContents ∧
    (phase1Requests runAWorkDirs "eng/signing/tosign/*" dryRunFiles dryRunContents).map
        signPropsContent ≠
      (phase1Requests runBWorkDirs "eng/signing/tosign/*" dryRunFiles dryRunContents).map
        signPropsContent :=
  ⟨by decide, by decide, by decide⟩
